import Mathlib

/-!
# Copy-contents pipeline of `src/main.js`

A shallow embedding of the aggregation / formatting pipeline of the
`CopyContentsPlugin` class: the entry filter, the tree collector
(`getAllFilesInFolder`), the three formatters (`formatAsMarkdown`,
`formatAsPlainText`, `formatAsJSON`), the export path resolver
(`createExportPath`) and the record construction of the single-file and
folder operations.

Conventions of the embedding.

* JavaScript strings are Lean `String`s.  The source only ever looks for the
  ASCII characters `/ # * [ ] ( ) : .`, the backtick and line terminators, so
  reading a well-formed string by code points instead of UTF-16 code units
  does not change any result.
* JavaScript numbers that hold sizes, counts and counters are `Nat`
  (they are non-negative integers far below `2^53`).
* Library functions of the host (`String.prototype.toLowerCase`,
  `toUpperCase`, `JSON.stringify`) and the storage collaborators
  (`vault.read`, `vault.adapter.exists`, the clock) are parameters.
* A thrown exception is an `Except.error` result; a rejected `vault.read` is
  `none`.  The `while` loop of `createExportPath` carries a bound on its
  number of turns and gives `none` when the bound is reached.
* The folder operations return, next to their outcome, the list of their
  observable steps in order (notices, opening of the selection modal, reads,
  clipboard and vault writes); the selection modal is a parameter giving the
  list that its `onSubmit` callback receives.
-/

namespace CopyContents

/-! ## Data model -/

/-- The plugin settings object (`DEFAULT_SETTINGS` lists its keys). -/
structure Settings where
  includeFolderStructure : Bool
  includeFileNames : Bool
  maxFileSize : Nat
  fileExtensions : List String
  outputFormat : String
  customSeparator : String
  showSelectionModal : Bool
  selectionThreshold : Nat
  exportLocation : String
  includeTimestamp : Bool
deriving DecidableEq, Repr

/-- The constant `DEFAULT_SETTINGS` of `main.js` (lines 3-14). -/
def DEFAULT_SETTINGS : Settings where
  includeFolderStructure := true
  includeFileNames := true
  maxFileSize := 1000
  fileExtensions := ["md", "txt", "json", "csv", "js", "ts", "py"]
  outputFormat := "markdown"
  customSeparator := "---"
  showSelectionModal := true
  selectionThreshold := 10
  exportLocation := "Exports"
  includeTimestamp := true

/-- A host `TFile`: the fields the pipeline reads (`file.stat.size` is `size`). -/
structure TFile where
  name : String
  path : String
  extension : String
  size : Nat
deriving DecidableEq, Repr

mutual
/-- A host `TFolder`: name, path and the list `children`. -/
inductive TFolder where
  | mk (name : String) (path : String) (children : List TAbstractFile)
/-- A child of a folder is a `TFile` or a `TFolder`. -/
inductive TAbstractFile where
  | file (f : TFile)
  | folder (d : TFolder)
end

/-- The field `folder.name`. -/
def TFolder.name : TFolder → String
  | .mk n _ _ => n

/-- The field `folder.path`. -/
def TFolder.path : TFolder → String
  | .mk _ p _ => p

/-- The field `folder.children`. -/
def TFolder.children : TFolder → List TAbstractFile
  | .mk _ _ cs => cs

/-- An element of the `fileContents` array: `{name, path, content, size}`. -/
structure FileRecord where
  name : String
  path : String
  content : String
  size : Nat
deriving DecidableEq, Repr

/-! ## Entry filter (lines 140-150 and 174-178) -/

/-- The arrow function handed to `files.filter` in `copyFolderContents` and
`exportFolderContents` (lines 174-178, 245-249). -/
def validFilesFilter (toLowerCase : String → String) (settings : Settings) (file : TFile) : Bool :=
  let extension := toLowerCase file.extension
  settings.fileExtensions.contains extension &&
    decide (file.size ≤ settings.maxFileSize * 1024)

/-! ## Tree collector (lines 435-448) -/

mutual
/-- The method `getAllFilesInFolder`: `files` starts empty and the loop over
`folder.children` fills it. -/
def getAllFilesInFolder : TFolder → List TFile
  | .mk _ _ children => getAllFilesInFolder.loop children []
/-- The `for (const child of folder.children)` loop, `files` being the
accumulator: a file is pushed, the files of a sub-folder are pushed in order. -/
def getAllFilesInFolder.loop : List TAbstractFile → List TFile → List TFile
  | [], files => files
  | .file child :: rest, files => getAllFilesInFolder.loop rest (files ++ [child])
  | .folder child :: rest, files =>
      getAllFilesInFolder.loop rest (files ++ getAllFilesInFolder child)
end

mutual
/-- The number of files in a folder tree, at any depth. -/
def TFolder.numFiles : TFolder → Nat
  | .mk _ _ children => numFilesOfChildren children
/-- The number of files below a list of children. -/
def numFilesOfChildren : List TAbstractFile → Nat
  | [] => 0
  | .file _ :: rest => 1 + numFilesOfChildren rest
  | .folder d :: rest => d.numFiles + numFilesOfChildren rest
end

mutual
/-- How many times the file `f` sits in a folder tree. -/
def TFolder.occurrences (f : TFile) : TFolder → Nat
  | .mk _ _ children => occurrencesInChildren f children
/-- How many times the file `f` sits below a list of children. -/
def occurrencesInChildren (f : TFile) : List TAbstractFile → Nat
  | [] => 0
  | .file g :: rest => (if g = f then 1 else 0) + occurrencesInChildren f rest
  | .folder d :: rest => d.occurrences f + occurrencesInChildren f rest
end

mutual
/-- The depth-first listing of the files of a folder tree: the children in
the order of the `children` list, a sub-folder standing for its own listing. -/
def TFolder.depthFirst : TFolder → List TFile
  | .mk _ _ children => depthFirstOfChildren children
/-- The depth-first listing of a list of children. -/
def depthFirstOfChildren : List TAbstractFile → List TFile
  | [] => []
  | .file f :: rest => f :: depthFirstOfChildren rest
  | .folder d :: rest => d.depthFirst ++ depthFirstOfChildren rest
end

/-! ## JavaScript string helpers -/

/-- JavaScript truthiness of an optional string argument: `undefined`
(`none`) and the empty string are falsy. -/
def truthy : Option String → Bool
  | none => false
  | some s => s != ""

/-- The text a template literal `${x}` gives for an optional string. -/
def templateValue : Option String → String
  | none => "undefined"
  | some s => s

/-- The call `s.split(sep)` for a one-character separator. -/
def splitOnChar (sep : Char) : List Char → List (List Char)
  | [] => [[]]
  | c :: cs =>
      if c = sep then [] :: splitOnChar sep cs
      else
        match splitOnChar sep cs with
        | [] => [[c]]
        | piece :: pieces => (c :: piece) :: pieces

/-- The call `pieces.join(sep)` for a one-character separator. -/
def joinWithChar (sep : Char) : List (List Char) → List Char
  | [] => []
  | [piece] => piece
  | piece :: rest => piece ++ sep :: joinWithChar sep rest

/-- The call `s.replace(pattern, replacement)` for a string pattern: the first
occurrence of `pattern`, searched from the left, is replaced. -/
def replaceFirst (pattern replacement : List Char) : List Char → List Char
  | [] => if pattern = [] then replacement else []
  | c :: cs =>
      if pattern.isPrefixOf (c :: cs) then
        replacement ++ (c :: cs).drop pattern.length
      else c :: replaceFirst pattern replacement cs

/-! ## Regular expressions of `formatAsPlainText` and `createExportPath`

The patterns of the source are sequences of single characters, quantified
character classes and one capture group; the matcher below is the
backtracking matcher of the language for that fragment. -/

/-- The syntax of the patterns used by the source. -/
inductive Regex where
  /-- One character of a class. -/
  | char (p : Char → Bool)
  /-- A quantified class `p{min,max}`; `max = none` is unbounded, and
  `greedy = false` is the lazy form `p{min,max}?`. -/
  | many (p : Char → Bool) (min : Nat) (max : Option Nat) (greedy : Bool)
  /-- Concatenation. -/
  | seq (r₁ r₂ : Regex)
  /-- The capture group `( r )`; the patterns have at most one. -/
  | group (r : Regex)

/-- A greedy quantified class: take as many characters as allowed, then give
them back one at a time until the continuation `k` succeeds. -/
def Regex.manyGreedy {α : Type} (p : Char → Bool) (k : List Char → Option α) :
    Nat → Option Nat → List Char → Option α
  | min, _, [] => if min = 0 then k [] else none
  | min, max, c :: cs =>
      if p c && max != some 0 then
        match Regex.manyGreedy p k (min - 1) (max.map (· - 1)) cs with
        | some r => some r
        | none => if min = 0 then k (c :: cs) else none
      else if min = 0 then k (c :: cs) else none

/-- A lazy quantified class: try the continuation `k` first, take one more
character only when it fails. -/
def Regex.manyLazy {α : Type} (p : Char → Bool) (k : List Char → Option α) :
    Nat → Option Nat → List Char → Option α
  | min, _, [] => if min = 0 then k [] else none
  | min, max, c :: cs =>
      match (if min = 0 then k (c :: cs) else none) with
      | some r => some r
      | none =>
          if p c && max != some 0 then
            Regex.manyLazy p k (min - 1) (max.map (· - 1)) cs
          else none

/-- Match a pattern at the head of `s`, in continuation-passing style: `k`
receives the rest of the input and the text of the capture group. -/
def Regex.run {α : Type} :
    Regex → List Char → Option (List Char) →
      (List Char → Option (List Char) → Option α) → Option α
  | .char _, [], _, _ => none
  | .char p, c :: cs, cap, k => if p c then k cs cap else none
  | .many p min max true, s, cap, k =>
      Regex.manyGreedy p (fun rest => k rest cap) min max s
  | .many p min max false, s, cap, k =>
      Regex.manyLazy p (fun rest => k rest cap) min max s
  | .seq r₁ r₂, s, cap, k => r₁.run s cap (fun rest cap₁ => r₂.run rest cap₁ k)
  | .group r, s, cap, k =>
      r.run s cap (fun rest _ => k rest (some (s.take (s.length - rest.length))))

/-- One match attempt at the head of `s`: the input left after the match and
the capture. -/
def Regex.exec (re : Regex) (s : List Char) : Option (List Char × Option (List Char)) :=
  re.run s none (fun rest cap => some (rest, cap))

/-- The call `s.replace(re, replacement)` for a pattern with the `g` flag: the input is
scanned from the left, each match is replaced and the scan resumes after it
(one character further after an empty match).  The second argument counts the
characters of the current match still to be skipped. -/
def Regex.replaceAll (re : Regex) (replacement : Option (List Char) → List Char) :
    List Char → Nat → List Char
  | [], 0 =>
      match re.exec [] with
      | some (_, cap) => replacement cap
      | none => []
  | [], _ + 1 => []
  | _ :: cs, skip + 1 => Regex.replaceAll re replacement cs skip
  | c :: cs, 0 =>
      match re.exec (c :: cs) with
      | some (rest, cap) =>
          let len := (c :: cs).length - rest.length
          if len = 0 then replacement cap ++ c :: Regex.replaceAll re replacement cs 0
          else replacement cap ++ Regex.replaceAll re replacement cs (len - 1)
      | none => c :: Regex.replaceAll re replacement cs 0

/-- The class `\s`: white space and line terminators. -/
def isWhiteSpace (c : Char) : Bool :=
  let n := c.toNat
  n == 0x09 || n == 0x0a || n == 0x0b || n == 0x0c || n == 0x0d || n == 0x20 ||
  n == 0xa0 || n == 0x1680 || (decide (0x2000 ≤ n) && decide (n ≤ 0x200a)) ||
  n == 0x2028 || n == 0x2029 || n == 0x202f || n == 0x205f || n == 0x3000 ||
  n == 0xfeff

/-- The class `.`: every character but the line terminators. -/
def isDot (c : Char) : Bool :=
  let n := c.toNat
  !(n == 0x0a || n == 0x0d || n == 0x2028 || n == 0x2029)

/-- A literal character of a pattern. -/
def Regex.lit (c : Char) : Regex := .char (· == c)

/-- The replacement string `'$1'`: the text of the capture group. -/
def dollar1 : Option (List Char) → List Char
  | some cap => cap
  | none => []

/-- The pattern `/#{1,6}\s+/g` (line 401). -/
def headerRe : Regex :=
  .seq (.many (· == '#') 1 (some 6) true) (.many isWhiteSpace 1 none true)

/-- The pattern `/\*\*(.*?)\*\*/g` (line 402). -/
def boldRe : Regex :=
  .seq (.lit '*') (.seq (.lit '*') (.seq (.group (.many isDot 0 none false))
    (.seq (.lit '*') (.lit '*'))))

/-- The pattern `/\*(.*?)\*/g` (line 403). -/
def italicRe : Regex :=
  .seq (.lit '*') (.seq (.group (.many isDot 0 none false)) (.lit '*'))

/-- The pattern of line 404: a backtick, `(.*?)`, a backtick. -/
def inlineCodeRe : Regex :=
  .seq (.lit '`') (.seq (.group (.many isDot 0 none false)) (.lit '`'))

/-- The pattern of line 405: three backticks, `[\s\S]*?`, three backticks. -/
def codeBlockRe : Regex :=
  .seq (.lit '`') (.seq (.lit '`') (.seq (.lit '`')
    (.seq (.many (fun _ => true) 0 none false)
      (.seq (.lit '`') (.seq (.lit '`') (.lit '`'))))))

/-- The pattern `/\[([^\]]+)\]\([^)]+\)/g` (line 406). -/
def linkRe : Regex :=
  .seq (.lit '[') (.seq (.group (.many (· != ']') 1 none true))
    (.seq (.lit ']') (.seq (.lit '(') (.seq (.many (· != ')') 1 none true) (.lit ')')))))

/-- The pattern `/[:.]/g` (line 329). -/
def colonOrPeriodRe : Regex :=
  .char (fun c => c == ':' || c == '.')

/-- The constant `plainContent` of `formatAsPlainText` (lines 400-406): the six
replacements applied to `file.content`, in the order of the source. -/
def plainContent (content : String) : String :=
  let s := content.data
  let s := headerRe.replaceAll (fun _ => []) s 0
  let s := boldRe.replaceAll dollar1 s 0
  let s := italicRe.replaceAll dollar1 s 0
  let s := inlineCodeRe.replaceAll dollar1 s 0
  let s := codeBlockRe.replaceAll (fun _ => "[CODE BLOCK]".data) s 0
  let s := linkRe.replaceAll dollar1 s 0
  String.mk s

/-! ## Content formatter (lines 352-433) -/

/-- The `forEach` of `formatAsMarkdown` (lines 371-382); `length` is
`fileContents.length`, `index` the index of the head of the list and `output`
the text built so far. -/
def formatAsMarkdown.forEach (settings : Settings) (folderName : Option String) (length : Nat) :
    List FileRecord → Nat → String → String
  | [], _, output => output
  | file :: rest, index, output =>
      let output :=
        if settings.includeFileNames then
          let headerLevel := if truthy folderName then "##" else "#"
          output ++ (headerLevel ++ " " ++ file.path ++ "\n\n")
        else output
      let output := output ++ file.content
      let output :=
        if (index : Int) < (length : Int) - 1 then
          output ++ ("\n\n" ++ settings.customSeparator ++ "\n\n")
        else output
      formatAsMarkdown.forEach settings folderName length rest (index + 1) output

/-- The method `formatAsMarkdown` (lines 364-385). -/
def formatAsMarkdown (settings : Settings) (fileContents : List FileRecord)
    (folderName : Option String) : String :=
  let output := ""
  let output :=
    if truthy folderName && settings.includeFolderStructure then
      output ++ ("# Folder: " ++ templateValue folderName ++ "\n\n")
    else output
  formatAsMarkdown.forEach settings folderName fileContents.length fileContents 0 output

/-- The `forEach` of `formatAsPlainText` (lines 394-413). -/
def formatAsPlainText.forEach (settings : Settings) (length : Nat) :
    List FileRecord → Nat → String → String
  | [], _, output => output
  | file :: rest, index, output =>
      let output :=
        if settings.includeFileNames then output ++ ("FILE: " ++ file.path ++ "\n\n")
        else output
      let output := output ++ plainContent file.content
      let output :=
        if (index : Int) < (length : Int) - 1 then
          output ++ ("\n\n" ++ settings.customSeparator ++ "\n\n")
        else output
      formatAsPlainText.forEach settings length rest (index + 1) output

/-- The method `formatAsPlainText` (lines 387-416). -/
def formatAsPlainText (toUpperCase : String → String) (settings : Settings)
    (fileContents : List FileRecord) (folderName : Option String) : String :=
  let output := ""
  let output :=
    if truthy folderName && settings.includeFolderStructure then
      output ++ ("FOLDER: " ++ toUpperCase (templateValue folderName) ++ "\n\n")
    else output
  formatAsPlainText.forEach settings fileContents.length fileContents 0 output

/-- A JavaScript value as handed to `JSON.stringify`. -/
inductive JsonValue where
  | null
  | str (s : String)
  | num (n : Nat)
  | arr (items : List JsonValue)
  | obj (fields : List (String × JsonValue))

/-- The value of the property `key` of an object. -/
def JsonValue.field (key : String) : JsonValue → Option JsonValue
  | .obj fields => (fields.find? (fun kv => kv.1 == key)).map (·.2)
  | _ => none

/-- The object literal `data` of `formatAsJSON` (lines 419-430); `now` is the
value of `new Date().toISOString()`. -/
def formatAsJSON.data (now : String) (fileContents : List FileRecord)
    (folderName : Option String) : JsonValue :=
  .obj [
    ("folder", if truthy folderName then .str (templateValue folderName) else .null),
    ("timestamp", .str now),
    ("fileCount", .num fileContents.length),
    ("totalSize", .num (fileContents.foldl (fun sum f => sum + f.size) 0)),
    ("files", .arr (fileContents.map (fun file =>
      .obj [("name", .str file.name), ("path", .str file.path),
            ("size", .num file.size), ("content", .str file.content)])))]

/-- The library functions and the clock the formatter relies on:
`String.prototype.toLowerCase`, `String.prototype.toUpperCase`, the call
`JSON.stringify(data, null, 2)`. -/
structure Host where
  toLowerCase : String → String
  toUpperCase : String → String
  stringify : JsonValue → String

/-- The method `formatAsJSON` (lines 418-433). -/
def formatAsJSON (host : Host) (now : String) (fileContents : List FileRecord)
    (folderName : Option String) : String :=
  host.stringify (formatAsJSON.data now fileContents folderName)

/-- The method `formatContent` (lines 352-362); a call with one argument has
`folderName = none`. -/
def formatContent (host : Host) (settings : Settings) (now : String)
    (fileContents : List FileRecord) (folderName : Option String) : String :=
  if settings.outputFormat = "json" then
    formatAsJSON host now fileContents folderName
  else if settings.outputFormat = "plaintext" then
    formatAsPlainText host.toUpperCase settings fileContents folderName
  else
    formatAsMarkdown settings fileContents folderName

/-! ## Export path resolver (lines 319-350) -/

/-- The constant `timestamp` of line 329:
`new Date().toISOString().replace(/[:.]/g, '-').slice(0, -5)`. -/
def timestamp (now : String) : String :=
  let replaced := colonOrPeriodRe.replaceAll (fun _ => ['-']) now.data 0
  String.mk (replaced.take (replaced.length - 5))

/-- The extension chosen at lines 334-335. -/
def exportExtension (settings : Settings) : String :=
  if settings.outputFormat = "json" then "json"
  else if settings.outputFormat = "plaintext" then "txt" else "md"

/-- The `while` loop of lines 341-347, with `fuel` bounding the number of
tests of the loop condition (`none` when the bound is reached).

The constant `timestamp` is declared with `const` inside the block of the
`if` of lines 328-331, so the `timestamp` of line 343 is outside its scope:
when `includeTimestamp` is on, evaluating the template literal of line 343
throws a `ReferenceError`.  The other branch of the conditional expression
does not mention it. -/
def createExportPath.loop (settings : Settings) (pathExists : String → Bool)
    (baseName exportFolder extension : String) :
    Nat → String → Nat → Option (Except String String)
  | 0, _, _ => none
  | fuel + 1, fullPath, counter =>
      if pathExists fullPath then
        if settings.includeTimestamp then
          some (.error "ReferenceError: timestamp is not defined")
        else
          let conflictName := baseName ++ "-" ++ toString counter
          createExportPath.loop settings pathExists baseName exportFolder extension fuel
            (exportFolder ++ "/" ++ conflictName ++ "." ++ extension) (counter + 1)
      else some (.ok fullPath)

/-- The method `createExportPath` (lines 319-350).  `pathExists` is
`vault.adapter.exists` at the time of the call; when the export folder is
missing, `createFolder` adds it, so that the later tests see it as existing.
The result is `none` when `fuel` runs out, `some (.error _)` on a thrown
exception and `some (.ok path)` on `return fullPath`. -/
def createExportPath (settings : Settings) (now : String) (pathExists : String → Bool)
    (baseName : String) (fuel : Nat) : Option (Except String String) :=
  let exportFolder := settings.exportLocation
  let pathExists : String → Bool :=
    if !pathExists exportFolder then fun p => p == exportFolder || pathExists p
    else pathExists
  let fileName :=
    if settings.includeTimestamp then baseName ++ "-" ++ timestamp now else baseName
  let extension := exportExtension settings
  let fullPath := exportFolder ++ "/" ++ fileName ++ "." ++ extension
  createExportPath.loop settings pathExists baseName exportFolder extension fuel fullPath 1

/-! ## Aggregation orchestrator (lines 137-317) -/

/-- What an operation did: the early returns with their notice, the `catch`
block, or the text handed to the clipboard or written to a new file.  The
calls `navigator.clipboard.writeText` and `vault.create` are taken to succeed. -/
inductive Outcome where
  | fileTooLarge
  | unsupportedExtension (ext : String)
  | noValidFiles
  | noFilesSelected
  | failed
  | copied (text : String)
  | exported (path : String) (text : String)
deriving DecidableEq, Repr

/-- The method `copyFileContents` (lines 137-169); `read` is `vault.read`,
`none` standing for a rejected read, which the `catch` block turns into the
failure notice. -/
def copyFileContents (host : Host) (settings : Settings) (now : String)
    (read : TFile → Option String) (file : TFile) : Outcome :=
  if file.size > settings.maxFileSize * 1024 then .fileTooLarge
  else
    let extension := host.toLowerCase file.extension
    if !settings.fileExtensions.contains extension then .unsupportedExtension extension
    else
      match read file with
      | none => .failed
      | some content =>
          let formattedOutput := formatContent host settings now
            [{ name := file.name, path := file.path, content := content, size := file.size }]
            none
          .copied formattedOutput

/-- The method `exportFileContents` (lines 208-240); `nowFormat` and
`nowExport` are the two readings of the clock, `fuel` bounds the loop of
`createExportPath` (`none` when it runs out). -/
def exportFileContents (host : Host) (settings : Settings) (nowFormat nowExport : String)
    (read : TFile → Option String) (pathExists : String → Bool) (fuel : Nat) (file : TFile) :
    Option Outcome :=
  if file.size > settings.maxFileSize * 1024 then some .fileTooLarge
  else
    let extension := host.toLowerCase file.extension
    if !settings.fileExtensions.contains extension then some (.unsupportedExtension extension)
    else
      match read file with
      | none => some .failed
      | some content =>
          let formattedOutput := formatContent host settings nowFormat
            [{ name := file.name, path := file.path, content := content, size := file.size }]
            none
          match createExportPath settings nowExport pathExists file.name fuel with
          | none => none
          | some (.error _) => some .failed
          | some (.ok exportPath) => some (.exported exportPath formattedOutput)

/-- The constant `relativePath` of lines 284-286. -/
def relativePath (file : TFile) : String :=
  if file.path.data.contains '/' then
    String.mk (replaceFirst
      (joinWithChar '/' (splitOnChar '/' file.path.data).dropLast ++ ['/']) []
      file.path.data)
  else file.name

/-- The `for` loop of `processSelectedFiles` (lines 281-303), `fileContents`
being the array that the loop fills. -/
def processSelectedFiles.loop (read : TFile → Option String) :
    List TFile → List FileRecord → List FileRecord
  | [], fileContents => fileContents
  | file :: rest, fileContents =>
      match read file with
      | some content =>
          processSelectedFiles.loop read rest (fileContents ++
            [{ name := file.name, path := relativePath file, content := content,
               size := file.size }])
      | none =>
          processSelectedFiles.loop read rest (fileContents ++
            [{ name := file.name, path := file.name, content := "*Error reading file*",
               size := 0 }])

/-- The method `processSelectedFiles` (lines 279-317); `toClipboard` is
`outputType === 'clipboard'`.  The result is `none` when `fuel` runs out in
`createExportPath`, `some (.error _)` when `createExportPath` throws. -/
def processSelectedFiles (host : Host) (settings : Settings) (nowFormat nowExport : String)
    (read : TFile → Option String) (pathExists : String → Bool) (fuel : Nat)
    (files : List TFile) (folderName : String) (toClipboard : Bool) :
    Option (Except String Outcome) :=
  let fileContents := processSelectedFiles.loop read files []
  let formattedOutput := formatContent host settings nowFormat fileContents (some folderName)
  if toClipboard then some (.ok (.copied formattedOutput))
  else
    match createExportPath settings nowExport pathExists (folderName ++ "-contents") fuel with
    | none => none
    | some (.error e) => some (.error e)
    | some (.ok exportPath) => some (.ok (.exported exportPath formattedOutput))

/-- The two early returns of the single-file operations. -/
def Outcome.isRejection : Outcome → Bool
  | .fileTooLarge => true
  | .unsupportedExtension _ => true
  | _ => false

/-! ## Specification-side definitions -/

/-- The folder heading of the markdown rendering: `"# Folder: <label>"` and a
blank line when the label is a non-empty string and `includeFolderStructure`
is on, nothing otherwise. -/
def markdownFolderHeading (settings : Settings) : Option String → String
  | some label =>
      if label ≠ "" ∧ settings.includeFolderStructure = true then
        "# Folder: " ++ label ++ "\n\n"
      else ""
  | none => ""

/-- The block of one record in the markdown rendering: when `includeFileNames`
is on, a heading with the record's path (`##` under a non-empty folder label,
`#` otherwise) and a blank line; then the raw content. -/
def markdownBlock (settings : Settings) (folderName : Option String) (file : FileRecord) :
    String :=
  (if settings.includeFileNames = true then
      (if truthy folderName = true then "## " else "# ") ++ file.path ++ "\n\n"
    else "") ++ file.content

/-- The text put between two consecutive records: a blank line, the
separator, a blank line. -/
def recordSeparator (settings : Settings) : String :=
  "\n\n" ++ settings.customSeparator ++ "\n\n"

/-- The entry `{name, path, size, content}` of a record in the JSON document. -/
def jsonFileEntry (file : FileRecord) : JsonValue :=
  .obj [("name", .str file.name), ("path", .str file.path),
        ("size", .num file.size), ("content", .str file.content)]

/-- The path `<exportLocation>/<fileName>.<ext>` tried first (line 337). -/
def firstExportPath (settings : Settings) (fileName : String) : String :=
  settings.exportLocation ++ "/" ++ fileName ++ "." ++ exportExtension settings

/-- The path `<exportLocation>/<fileName>-<k>.<ext>`. -/
def numberedExportPath (settings : Settings) (fileName : String) (k : Nat) : String :=
  settings.exportLocation ++ "/" ++ (fileName ++ "-" ++ toString k) ++ "." ++
    exportExtension settings

/-- The candidates in the order in which they are tried when `includeTimestamp`
is off: the plain path, then the numbered ones from 1 on. -/
def exportCandidate (settings : Settings) (baseName : String) : Nat → String
  | 0 => firstExportPath settings baseName
  | k + 1 => numberedExportPath settings baseName (k + 1)

/-- The number written by a list of decimal digits. -/
def decodeDigits (l : List Char) : Nat :=
  l.foldl (fun acc c => 10 * acc + (c.toNat - 48)) 0

/-- The settings with the timestamp switched off and the other defaults. -/
def settingsNoTimestamp : Settings :=
  { DEFAULT_SETTINGS with includeTimestamp := false }

/-- A host for the worked examples: case mapping of the ASCII letters.  None
of the examples renders JSON, so `stringify` is never called in them. -/
def exampleHost : Host where
  toLowerCase := fun s => String.mk (s.data.map Char.toLower)
  toUpperCase := fun s => String.mk (s.data.map Char.toUpper)
  stringify := fun _ => ""

/-- The record that one turn of the loop of `processSelectedFiles` pushes for
`file`: the `try` branch when the read succeeds, the `catch` branch otherwise. -/
def processSelectedFiles.record (read : TFile → Option String) (file : TFile) : FileRecord :=
  match read file with
  | some content =>
      { name := file.name, path := relativePath file, content := content, size := file.size }
  | none =>
      { name := file.name, path := file.name, content := "*Error reading file*", size := 0 }

/-! ## Folder operations and their observable steps (lines 171-206, 242-317) -/

/-- The notices of the folder operations: `'No valid files found in folder'`,
`'No files selected'`, the two success notices (with the number of files, the
total size in bytes that the text renders in KB, the folder name and, for an
export, the path) and the failure notice of the `catch` block. -/
inductive FolderNotice where
  | noValidFiles
  | noFilesSelected
  | copied (count : Nat) (totalSize : Nat) (folderName : String)
  | exported (count : Nat) (totalSize : Nat) (folderName : String) (exportPath : String)
  | failed
deriving DecidableEq, Repr

/-- One observable step of a folder operation: a notice, the opening of the
`FileSelectionModal` on a list of files, `vault.read`,
`navigator.clipboard.writeText`, `vault.createFolder`, `vault.create`. -/
inductive Effect where
  | notice (n : FolderNotice)
  | openModal (files : List TFile)
  | read (file : TFile)
  | writeText (text : String)
  | createFolder (path : String)
  | create (path : String) (content : String)
deriving DecidableEq, Repr

/-- The steps that read a file or write to a sink (clipboard or vault). -/
def Effect.isReadOrWrite : Effect → Bool
  | .read _ => true
  | .writeText _ => true
  | .createFolder _ => true
  | .create _ _ => true
  | _ => false

/-- The file of a `vault.read` step. -/
def Effect.readFile? : Effect → Option TFile
  | .read file => some file
  | _ => none

/-- The text of a clipboard or `vault.create` step. -/
def Effect.writtenText? : Effect → Option String
  | .writeText text => some text
  | .create _ content => some content
  | _ => none

/-- The step of `createExportPath` that changes the vault (lines 322-324):
the export folder is created when it does not exist. -/
def createExportPath.effects (settings : Settings) (pathExists : String → Bool) : List Effect :=
  if !pathExists settings.exportLocation then [.createFolder settings.exportLocation] else []

/-- The observable steps of `processSelectedFiles` (lines 279-317), in order:
one `vault.read` per file of the loop, then either the clipboard write and its
notice, or the steps of `createExportPath` followed, when it returns a path, by
`vault.create` and its notice. -/
def processSelectedFiles.effects (host : Host) (settings : Settings)
    (nowFormat nowExport : String) (read : TFile → Option String)
    (pathExists : String → Bool) (fuel : Nat) (files : List TFile) (folderName : String)
    (toClipboard : Bool) : List Effect :=
  let fileContents := processSelectedFiles.loop read files []
  let formattedOutput := formatContent host settings nowFormat fileContents (some folderName)
  let totalSize := files.foldl (fun sum f => sum + f.size) 0
  files.map Effect.read ++
    (if toClipboard then
      [.writeText formattedOutput, .notice (.copied files.length totalSize folderName)]
    else
      createExportPath.effects settings pathExists ++
        (match createExportPath settings nowExport pathExists (folderName ++ "-contents") fuel with
        | some (.ok exportPath) =>
            [.create exportPath formattedOutput,
             .notice (.exported files.length totalSize folderName exportPath)]
        | _ => []))

/-- How a folder operation ends: with one of the outcomes; with the modal
closed without a submission (the returned promise stays pending); with an
exception thrown inside the modal callback, which no `catch` block handles;
or at the bound put on the loop of `createExportPath`. -/
inductive FolderOutcome where
  | done (o : Outcome)
  | dismissed
  | unhandled (error : String)
  | loopBound
deriving DecidableEq, Repr

/-- A run of a folder operation: its observable steps in order and its end. -/
structure FolderRun where
  effects : List Effect
  outcome : FolderOutcome
deriving DecidableEq, Repr

/-- The constant `validFiles` of lines 173-178 and 244-249. -/
def validFiles (host : Host) (settings : Settings) (folder : TFolder) : List TFile :=
  let files := getAllFilesInFolder folder
  files.filter (fun file => validFilesFilter host.toLowerCase settings file)

/-- The common text of `copyFolderContents` and `exportFolderContents`, which
differ in the output type handed to `processSelectedFiles` only
(`toClipboard` is `true` for `'clipboard'`).  `selector` is the
`FileSelectionModal`: the list its `onSubmit` callback receives, `none` when
the modal is closed without a submission. -/
def folderContents (host : Host) (settings : Settings) (nowFormat nowExport : String)
    (read : TFile → Option String) (pathExists : String → Bool) (fuel : Nat)
    (selector : List TFile → Option (List TFile)) (toClipboard : Bool) (folder : TFolder) :
    FolderRun :=
  let validFiles := validFiles host settings folder
  if validFiles.length = 0 then
    ⟨[.notice .noValidFiles], .done .noValidFiles⟩
  else if settings.showSelectionModal &&
      decide (validFiles.length ≥ settings.selectionThreshold) then
    match selector validFiles with
    | none => ⟨[.openModal validFiles], .dismissed⟩
    | some selectedFiles =>
        if selectedFiles.length = 0 then
          ⟨[.openModal validFiles, .notice .noFilesSelected], .done .noFilesSelected⟩
        else
          ⟨.openModal validFiles ::
              processSelectedFiles.effects host settings nowFormat nowExport read pathExists fuel
                selectedFiles folder.name toClipboard,
            match processSelectedFiles host settings nowFormat nowExport read pathExists fuel
                selectedFiles folder.name toClipboard with
            | none => .loopBound
            | some (.error e) => .unhandled e
            | some (.ok o) => .done o⟩
  else
    let effects := processSelectedFiles.effects host settings nowFormat nowExport read
      pathExists fuel validFiles folder.name toClipboard
    match processSelectedFiles host settings nowFormat nowExport read pathExists fuel
        validFiles folder.name toClipboard with
    | none => ⟨effects, .loopBound⟩
    | some (.error _) => ⟨effects ++ [.notice .failed], .done .failed⟩
    | some (.ok o) => ⟨effects, .done o⟩

/-- The method `copyFolderContents` (lines 171-206). -/
def copyFolderContents (host : Host) (settings : Settings) (nowFormat : String)
    (read : TFile → Option String) (selector : List TFile → Option (List TFile))
    (folder : TFolder) : FolderRun :=
  folderContents host settings nowFormat "" read (fun _ => false) 0 selector true folder

/-- The method `exportFolderContents` (lines 242-277). -/
def exportFolderContents (host : Host) (settings : Settings) (nowFormat nowExport : String)
    (read : TFile → Option String) (pathExists : String → Bool) (fuel : Nat)
    (selector : List TFile → Option (List TFile)) (folder : TFolder) : FolderRun :=
  folderContents host settings nowFormat nowExport read pathExists fuel selector false folder

/-- A folder `root` with the files `a.md`, `sub/b.md` and `c.md`. -/
def exampleFolder : TFolder :=
  .mk "root" "root"
    [.file { name := "a.md", path := "root/a.md", extension := "md", size := 5 },
     .folder (.mk "sub" "root/sub"
       [.file { name := "b.md", path := "root/sub/b.md", extension := "md", size := 5 }]),
     .file { name := "c.md", path := "root/c.md", extension := "md", size := 5 }]

/-- The effect of the replacement of line 329 on one character. -/
def dashForColonOrPeriod (c : Char) : Char :=
  if c == ':' || c == '.' then '-' else c

/-- The default settings with the selection threshold set to 3. -/
def settingsThreshold3 : Settings :=
  { DEFAULT_SETTINGS with selectionThreshold := 3 }

/-- The default settings with the selection threshold set to 4. -/
def settingsThreshold4 : Settings :=
  { DEFAULT_SETTINGS with selectionThreshold := 4 }

/-! ## Theorems -/

theorem validFilesFilter_eligible (toLowerCase : String → String) (settings : Settings)
    (f : TFile) :
    validFilesFilter toLowerCase settings f = true ↔
      (f.size ≤ settings.maxFileSize * 1024 ∧
        toLowerCase f.extension ∈ settings.fileExtensions) := by
  simp only [validFilesFilter, Bool.and_eq_true, decide_eq_true_eq]
  constructor
  · rintro ⟨h₁, h₂⟩
    exact ⟨h₂, by simpa using h₁⟩
  · rintro ⟨h₁, h₂⟩
    exact ⟨by simpa using h₂, h₁⟩

/-- C1: the folder filter keeps a file exactly when its size is at most
`maxFileSize * 1024` and its lowercased extension is listed in
`fileExtensions`; `copyFileContents` and `exportFileContents` return at one of
their two guards exactly when that condition is false. -/
theorem validFilesFilter_iff_eligible (host : Host) (settings : Settings) (f : TFile) :
    (validFilesFilter host.toLowerCase settings f = true ↔
        (f.size ≤ settings.maxFileSize * 1024 ∧
          host.toLowerCase f.extension ∈ settings.fileExtensions)) ∧
    (∀ (now : String) (read : TFile → Option String),
      (copyFileContents host settings now read f).isRejection = true ↔
        ¬ (f.size ≤ settings.maxFileSize * 1024 ∧
          host.toLowerCase f.extension ∈ settings.fileExtensions)) ∧
    (∀ (nowFormat nowExport : String) (read : TFile → Option String)
        (pathExists : String → Bool) (fuel : Nat),
      (∃ o, exportFileContents host settings nowFormat nowExport read pathExists fuel f = some o ∧
          o.isRejection = true) ↔
        ¬ (f.size ≤ settings.maxFileSize * 1024 ∧
          host.toLowerCase f.extension ∈ settings.fileExtensions)) := by
  refine ⟨?_, ?_, ?_⟩
  · exact validFilesFilter_eligible host.toLowerCase settings f
  · intro now read
    unfold copyFileContents
    by_cases hs : f.size > settings.maxFileSize * 1024
    · have : ¬ f.size ≤ settings.maxFileSize * 1024 := by omega
      simp [hs, this, Outcome.isRejection]
    · have hle : f.size ≤ settings.maxFileSize * 1024 := by omega
      by_cases he : host.toLowerCase f.extension ∈ settings.fileExtensions
      · cases hr : read f <;> simp [hs, he, hle, hr, Outcome.isRejection]
      · simp [hs, he, hle, Outcome.isRejection]
  · intro nowFormat nowExport read pathExists fuel
    unfold exportFileContents
    by_cases hs : f.size > settings.maxFileSize * 1024
    · have : ¬ f.size ≤ settings.maxFileSize * 1024 := by omega
      simp [hs, this, Outcome.isRejection]
    · have hle : f.size ≤ settings.maxFileSize * 1024 := by omega
      by_cases he : host.toLowerCase f.extension ∈ settings.fileExtensions
      · cases hr : read f
        · simp [hs, he, hle, hr, Outcome.isRejection]
        · have hc : settings.fileExtensions.contains (host.toLowerCase f.extension) = true := by
            simpa using he
          simp only [hs, hc, he, hle, if_false, Bool.not_true, Bool.false_eq_true, and_self,
            not_true_eq_false, iff_false, not_exists, not_and]
          intro o ho
          cases hp : createExportPath settings nowExport pathExists f.name fuel with
          | none => simp [hp] at ho
          | some r =>
              cases r with
              | error e => simp [hp] at ho; subst ho; simp [Outcome.isRejection]
              | ok path => simp [hp] at ho; subst ho; simp [Outcome.isRejection]
      · simp [hs, he, hle, Outcome.isRejection]

mutual
theorem getAllFilesInFolder_eq_depthFirst :
    ∀ d : TFolder, getAllFilesInFolder d = d.depthFirst
  | .mk _ _ children => by
      rw [getAllFilesInFolder, TFolder.depthFirst, getAllFilesInFolder_loop_eq children []]
      rfl
theorem getAllFilesInFolder_loop_eq :
    ∀ (children : List TAbstractFile) (files : List TFile),
      getAllFilesInFolder.loop children files = files ++ depthFirstOfChildren children
  | [], files => by simp [getAllFilesInFolder.loop, depthFirstOfChildren]
  | .file f :: rest, files => by
      rw [getAllFilesInFolder.loop, getAllFilesInFolder_loop_eq rest, depthFirstOfChildren]
      simp
  | .folder d :: rest, files => by
      rw [getAllFilesInFolder.loop, getAllFilesInFolder_loop_eq rest,
        getAllFilesInFolder_eq_depthFirst d, depthFirstOfChildren]
      simp
end

mutual
theorem depthFirst_length : ∀ d : TFolder, d.depthFirst.length = d.numFiles
  | .mk _ _ children => by
      rw [TFolder.depthFirst, TFolder.numFiles, depthFirstOfChildren_length children]
theorem depthFirstOfChildren_length :
    ∀ children : List TAbstractFile,
      (depthFirstOfChildren children).length = numFilesOfChildren children
  | [] => by simp [depthFirstOfChildren, numFilesOfChildren]
  | .file f :: rest => by
      rw [depthFirstOfChildren, numFilesOfChildren, List.length_cons,
        depthFirstOfChildren_length rest]
      omega
  | .folder d :: rest => by
      rw [depthFirstOfChildren, numFilesOfChildren, List.length_append,
        depthFirstOfChildren_length rest, depthFirst_length d]
end

mutual
theorem depthFirst_count (f : TFile) :
    ∀ d : TFolder, d.depthFirst.count f = d.occurrences f
  | .mk _ _ children => by
      rw [TFolder.depthFirst, TFolder.occurrences, depthFirstOfChildren_count f children]
theorem depthFirstOfChildren_count (f : TFile) :
    ∀ children : List TAbstractFile,
      (depthFirstOfChildren children).count f = occurrencesInChildren f children
  | [] => by simp [depthFirstOfChildren, occurrencesInChildren]
  | .file g :: rest => by
      rw [depthFirstOfChildren, occurrencesInChildren, List.count_cons,
        depthFirstOfChildren_count f rest]
      by_cases h : g = f
      · simp [h]; omega
      · simp [h]
  | .folder d :: rest => by
      rw [depthFirstOfChildren, occurrencesInChildren, List.count_append,
        depthFirstOfChildren_count f rest, depthFirst_count f d]
end

/-- C2: on every folder tree `getAllFilesInFolder` returns a value (the
function is total), the list has as many entries as the tree has files, every
file appears in it exactly as often as it sits in the tree, and the order is
the depth-first order of the `children` lists. -/
theorem getAllFilesInFolder_collects (d : TFolder) :
    (getAllFilesInFolder d).length = d.numFiles ∧
    (∀ f : TFile, (getAllFilesInFolder d).count f = d.occurrences f) ∧
    getAllFilesInFolder d = d.depthFirst := by
  rw [getAllFilesInFolder_eq_depthFirst]
  exact ⟨depthFirst_length d, fun f => depthFirst_count f d, rfl⟩

/-! ### Markdown rendering -/

theorem intercalate_go_append (sep x : String) :
    ∀ (l : List String) (y : String),
      String.intercalate.go (x ++ y) sep l = x ++ String.intercalate.go y sep l
  | [], y => by simp [String.intercalate.go]
  | c :: l, y => by
      simp only [String.intercalate.go]
      rw [String.append_assoc, String.append_assoc, intercalate_go_append sep x l,
        String.append_assoc]

theorem intercalate_cons_cons (sep a b : String) (l : List String) :
    String.intercalate sep (a :: b :: l) = a ++ (sep ++ String.intercalate sep (b :: l)) := by
  simp only [String.intercalate, String.intercalate.go]
  rw [String.append_assoc, intercalate_go_append, intercalate_go_append]

theorem markdown_step (settings : Settings) (folderName : Option String) (file : FileRecord)
    (output : String) :
    (if settings.includeFileNames = true then
        output ++ ((if truthy folderName = true then "##" else "#") ++ " " ++ file.path ++ "\n\n")
      else output) ++ file.content = output ++ markdownBlock settings folderName file := by
  unfold markdownBlock
  by_cases hn : settings.includeFileNames = true
  · by_cases ht : truthy folderName = true
    · simp only [hn, ht, if_true, String.append_assoc]
      rfl
    · simp only [hn, ht, if_true, if_false, String.append_assoc]
      rfl
  · simp [hn]

theorem formatAsMarkdown_forEach_eq (settings : Settings) (folderName : Option String) :
    ∀ (rest : List FileRecord) (index length : Nat) (output : String),
      index + rest.length = length →
      formatAsMarkdown.forEach settings folderName length rest index output =
        output ++ String.intercalate (recordSeparator settings)
          (rest.map (markdownBlock settings folderName))
  | [], _, _, output, _ => by
      simp [formatAsMarkdown.forEach, String.intercalate]
  | [file], index, length, output, h => by
      have hlast : ¬ ((index : Int) < (length : Int) - 1) := by
        simp only [List.length_singleton] at h
        omega
      simp only [formatAsMarkdown.forEach, hlast, if_false, List.map, String.intercalate,
        String.intercalate.go]
      exact markdown_step settings folderName file output
  | file :: next :: rest, index, length, output, h => by
      have hmore : (index : Int) < (length : Int) - 1 := by
        simp only [List.length_cons] at h
        omega
      rw [formatAsMarkdown.forEach]
      simp only [hmore, if_true]
      rw [formatAsMarkdown_forEach_eq settings folderName (next :: rest) (index + 1) length _
        (by simp only [List.length_cons] at h ⊢; omega)]
      rw [markdown_step]
      simp only [List.map, intercalate_cons_cons, recordSeparator, String.append_assoc]

theorem markdown_heading_eq (settings : Settings) (folderName : Option String) :
    (if (truthy folderName && settings.includeFolderStructure) = true then
        "" ++ ("# Folder: " ++ templateValue folderName ++ "\n\n")
      else "") = markdownFolderHeading settings folderName := by
  cases folderName with
  | none => simp [truthy, markdownFolderHeading]
  | some label =>
      by_cases hl : label = ""
      · simp [truthy, markdownFolderHeading, hl]
      · by_cases hf : settings.includeFolderStructure = true
        · simp [truthy, markdownFolderHeading, hl, hf, templateValue]
        · simp [truthy, markdownFolderHeading, hl, hf]

theorem formatAsMarkdown_eq (settings : Settings) (records : List FileRecord)
    (folderName : Option String) :
    formatAsMarkdown settings records folderName =
      markdownFolderHeading settings folderName ++
        String.intercalate (recordSeparator settings)
          (records.map (markdownBlock settings folderName)) := by
  unfold formatAsMarkdown
  simp only []
  rw [formatAsMarkdown_forEach_eq settings folderName records 0 records.length _ (by omega),
    markdown_heading_eq]

theorem intercalate_length (sep : String) :
    ∀ blocks : List String,
      (String.intercalate sep blocks).length =
        (blocks.map String.length).sum + (blocks.length - 1) * sep.length
  | [] => by simp [String.intercalate]
  | [a] => by simp [String.intercalate, String.intercalate.go]
  | a :: b :: l => by
      rw [intercalate_cons_cons, String.length_append, String.length_append,
        intercalate_length sep (b :: l)]
      simp only [List.map, List.sum_cons, List.length_cons, Nat.add_sub_cancel]
      ring

/-- C3: `formatAsMarkdown` returns the folder heading (present when the label
is a non-empty string and `includeFolderStructure` is on) followed by the
blocks of the records joined by blank line, separator, blank line; the length
of the output accounts for exactly `n - 1` separators; and the two records
`a.md` / `b.md` with the default settings and no folder label give both
headings, one `---` between them and no separator at the end. -/
theorem formatAsMarkdown_joins_blocks :
    (∀ (settings : Settings) (records : List FileRecord) (folderName : Option String),
      formatAsMarkdown settings records folderName =
        markdownFolderHeading settings folderName ++
          String.intercalate ("\n\n" ++ settings.customSeparator ++ "\n\n")
            (records.map (markdownBlock settings folderName)) ∧
      (formatAsMarkdown settings records folderName).length =
        (markdownFolderHeading settings folderName).length +
          (records.map (fun r => (markdownBlock settings folderName r).length)).sum +
          (records.length - 1) * ("\n\n" ++ settings.customSeparator ++ "\n\n").length) ∧
    formatAsMarkdown DEFAULT_SETTINGS
        [{ name := "a.md", path := "a.md", content := "hello", size := 5 },
         { name := "b.md", path := "b.md", content := "world", size := 5 }] none =
      "# a.md\n\nhello\n\n---\n\n# b.md\n\nworld" := by
  refine ⟨fun settings records folderName => ⟨formatAsMarkdown_eq settings records folderName, ?_⟩,
    by decide⟩
  rw [formatAsMarkdown_eq, String.length_append, intercalate_length, List.length_map,
    List.map_map]
  simp only [recordSeparator, Function.comp_def, Nat.add_assoc]

/-! ### JSON rendering -/

theorem foldl_size_eq_sum :
    ∀ (records : List FileRecord) (start : Nat),
      records.foldl (fun sum f => sum + f.size) start = start + (records.map (·.size)).sum
  | [], start => by simp
  | r :: rest, start => by
      rw [List.foldl_cons, foldl_size_eq_sum rest, List.map_cons, List.sum_cons]
      omega

/-- C4: `formatAsJSON` serialises a document whose `fileCount` is the number
of records, whose `totalSize` is the sum of their sizes, whose `folder` is the
label (null when the label is missing or empty) and whose `files` lists the
records in order as `{name, path, size, content}`, the content being the
record's own content. -/
theorem formatAsJSON_document (host : Host) (now : String) (records : List FileRecord)
    (folderName : Option String) :
    formatAsJSON host now records folderName =
        host.stringify (formatAsJSON.data now records folderName) ∧
    (formatAsJSON.data now records folderName).field "fileCount" =
        some (.num records.length) ∧
    (formatAsJSON.data now records folderName).field "totalSize" =
        some (.num (records.map (·.size)).sum) ∧
    (formatAsJSON.data now records folderName).field "folder" =
        some (match folderName with
          | some label => if label = "" then .null else .str label
          | none => .null) ∧
    (formatAsJSON.data now records folderName).field "files" =
        some (.arr (records.map jsonFileEntry)) ∧
    (∀ i : Nat, (records.map jsonFileEntry)[i]? = records[i]?.map jsonFileEntry) ∧
    (∀ r : FileRecord, (jsonFileEntry r).field "name" = some (.str r.name) ∧
      (jsonFileEntry r).field "path" = some (.str r.path) ∧
      (jsonFileEntry r).field "size" = some (.num r.size) ∧
      (jsonFileEntry r).field "content" = some (.str r.content)) := by
  refine ⟨rfl, ?_, ?_, ?_, ?_, ?_, ?_⟩
  · simp [formatAsJSON.data, JsonValue.field, List.find?]
  · have hsum := foldl_size_eq_sum records 0
    simp only [Nat.zero_add] at hsum
    simp [formatAsJSON.data, JsonValue.field, List.find?, hsum]
  · cases folderName with
    | none => simp [formatAsJSON.data, JsonValue.field, List.find?, truthy]
    | some label =>
        by_cases hl : label = ""
        · simp [formatAsJSON.data, JsonValue.field, List.find?, truthy, hl]
        · simp [formatAsJSON.data, JsonValue.field, List.find?, truthy, hl, templateValue]
  · simp [formatAsJSON.data, JsonValue.field, List.find?, jsonFileEntry]
  · intro i
    simp
  · intro r
    simp [jsonFileEntry, JsonValue.field, List.find?]

/-! ### Export path resolver -/

theorem digitChar_toNat (m : Nat) (h : m < 10) : (Nat.digitChar m).toNat - 48 = m := by
  interval_cases m <;> rfl

theorem toDigitsCore_foldl :
    ∀ (fuel n : Nat) (ds : List Char), n < fuel →
      (Nat.toDigitsCore 10 fuel n ds).foldl (fun acc c => 10 * acc + (c.toNat - 48)) 0 =
        ds.foldl (fun acc c => 10 * acc + (c.toNat - 48)) n
  | 0, n, ds, h => by omega
  | fuel + 1, n, ds, h => by
      rw [Nat.toDigitsCore]
      by_cases h0 : n / 10 = 0
      · have hn : n < 10 := by omega
        simp only [h0, if_true, List.foldl_cons]
        rw [digitChar_toNat _ (Nat.mod_lt _ (by norm_num))]
        congr 1
        omega
      · simp only [h0, if_false]
        rw [toDigitsCore_foldl fuel (n / 10) _ (by omega), List.foldl_cons,
          digitChar_toNat _ (Nat.mod_lt _ (by norm_num))]
        congr 1
        omega

theorem decodeDigits_toString (n : Nat) : decodeDigits (toString n).data = n := by
  show decodeDigits (Nat.repr n).data = n
  unfold Nat.repr Nat.toDigits decodeDigits
  rw [List.asString, toDigitsCore_foldl (n + 1) n [] (by omega)]
  rfl

theorem toString_nat_inj {a b : Nat} (h : toString a = toString b) : a = b := by
  have := congrArg (fun s : String => decodeDigits s.data) h
  simpa [decodeDigits_toString] using this

theorem numberedExportPath_inj (settings : Settings) (fileName : String) {a b : Nat}
    (h : numberedExportPath settings fileName a = numberedExportPath settings fileName b) :
    a = b := by
  unfold numberedExportPath at h
  have hd := congrArg String.data h
  simp only [String.data_append, List.append_assoc, List.append_cancel_left_eq] at hd
  have hd' : (toString a).data = (toString b).data := List.append_cancel_right hd
  exact toString_nat_inj (String.ext hd')

theorem numberedExportPath_ne_folder (settings : Settings) (fileName : String) (k : Nat) :
    numberedExportPath settings fileName k ≠ settings.exportLocation := by
  intro h
  have := congrArg String.length h
  simp only [numberedExportPath, String.length_append] at this
  have h1 : ("/" : String).length = 1 := rfl
  omega

theorem firstExportPath_ne_folder (settings : Settings) (fileName : String) :
    firstExportPath settings fileName ≠ settings.exportLocation := by
  intro h
  have := congrArg String.length h
  simp only [firstExportPath, String.length_append] at this
  have h1 : ("/" : String).length = 1 := rfl
  omega

theorem exportCandidate_ne_folder (settings : Settings) (baseName : String) (k : Nat) :
    exportCandidate settings baseName k ≠ settings.exportLocation := by
  cases k with
  | zero => exact firstExportPath_ne_folder settings baseName
  | succ k => exact numberedExportPath_ne_folder settings baseName (k + 1)

theorem exists_free_numbered (settings : Settings) (baseName : String)
    (pathExists : String → Bool) (taken : List String)
    (hfin : ∀ p, pathExists p = true → p ∈ taken) :
    ∃ k, pathExists (numberedExportPath settings baseName (k + 1)) = false := by
  by_contra hall
  push_neg at hall
  have hmem : ∀ k : Nat, numberedExportPath settings baseName (k + 1) ∈ {p | p ∈ taken} := by
    intro k
    exact hfin _ (by simpa using hall k)
  have hinj : Function.Injective (fun k : Nat => numberedExportPath settings baseName (k + 1)) := by
    intro a b h
    have := numberedExportPath_inj settings baseName h
    omega
  exact Set.infinite_of_injective_forall_mem hinj hmem (List.finite_toSet taken)

theorem createExportPath_loop_finds (settings : Settings)
    (hts : settings.includeTimestamp = false) (pathExists : String → Bool) (baseName : String) :
    ∀ (d j fuel : Nat),
      (∀ i, j ≤ i → i < j + d → pathExists (exportCandidate settings baseName i) = true) →
      pathExists (exportCandidate settings baseName (j + d)) = false →
      d < fuel →
      createExportPath.loop settings pathExists baseName settings.exportLocation
          (exportExtension settings) fuel (exportCandidate settings baseName j) (j + 1) =
        some (.ok (exportCandidate settings baseName (j + d)))
  | 0, j, fuel, _, hfree, hfuel => by
      obtain ⟨f, rfl⟩ : ∃ f, fuel = f + 1 := ⟨fuel - 1, by omega⟩
      rw [createExportPath.loop]
      simp only [Nat.add_zero] at hfree
      simp [hfree]
  | d + 1, j, fuel, htaken, hfree, hfuel => by
      obtain ⟨f, rfl⟩ : ∃ f, fuel = f + 1 := ⟨fuel - 1, by omega⟩
      rw [createExportPath.loop]
      have hj := htaken j (Nat.le_refl j) (by omega)
      simp only [hj, hts, if_true, Bool.false_eq_true, if_false]
      have hstep := createExportPath_loop_finds settings hts pathExists baseName d (j + 1) f
        (fun i h₁ h₂ => htaken i (by omega) (by omega))
        (by rw [show j + 1 + d = j + (d + 1) by omega]; exact hfree) (by omega)
      rw [show j + 1 + d = j + (d + 1) by omega] at hstep
      exact hstep


theorem createExportPath_eq_loop (settings : Settings) (hts : settings.includeTimestamp = false)
    (now baseName : String) (pathExists : String → Bool) (fuel : Nat) :
    createExportPath settings now pathExists baseName fuel =
      createExportPath.loop settings
        (if (!pathExists settings.exportLocation) = true then
          fun p => p == settings.exportLocation || pathExists p
        else pathExists)
        baseName settings.exportLocation (exportExtension settings) fuel
        (exportCandidate settings baseName 0) (0 + 1) := by
  simp only [createExportPath, hts, Bool.false_eq_true, if_false, exportCandidate,
    firstExportPath]

/-- C5: with `includeTimestamp` off and an `exists` predicate true on finitely
many paths only, `createExportPath` returns (for every large enough bound on
the number of loop tests) a path on which `exists` is false: the plain path
`<exportLocation>/<baseName>.<ext>` when it is free, otherwise the numbered
path `<exportLocation>/<baseName>-<k>.<ext>` for the least `k ≥ 1` that is
free.  With `Exports/out.md` and `Exports/out-1.md` taken, base name `out` and
markdown output the result is `Exports/out-2.md`. -/
theorem createExportPath_returns_first_free :
    (∀ (settings : Settings) (now baseName : String) (pathExists : String → Bool)
        (taken : List String),
      settings.includeTimestamp = false →
      (∀ p, pathExists p = true → p ∈ taken) →
      ∃ (fuel : Nat) (path : String),
        (∀ fuel', fuel ≤ fuel' →
          createExportPath settings now pathExists baseName fuel' = some (.ok path)) ∧
        pathExists path = false ∧
        (pathExists (firstExportPath settings baseName) = false →
          path = firstExportPath settings baseName) ∧
        (pathExists (firstExportPath settings baseName) = true →
          ∃ k, 1 ≤ k ∧ path = numberedExportPath settings baseName k ∧
            ∀ j, 1 ≤ j → j < k →
              pathExists (numberedExportPath settings baseName j) = true)) ∧
    (∀ (now : String) (fuel : Nat),
      createExportPath settingsNoTimestamp now
          (fun p => p == "Exports/out.md" || p == "Exports/out-1.md") "out" (fuel + 3) =
        some (.ok "Exports/out-2.md")) := by
  refine ⟨?_, fun now fuel => rfl⟩
  intro settings now baseName pathExists taken hts hfin
  -- the predicate seen by the loop, after `createFolder`
  obtain ⟨pe, hpe⟩ : ∃ pe : String → Bool, pe =
      (if (!pathExists settings.exportLocation) = true then
        fun p => p == settings.exportLocation || pathExists p
      else pathExists) := ⟨_, rfl⟩
  have hne : ∀ p, p ≠ settings.exportLocation → pe p = pathExists p := by
    intro p hp
    rw [hpe]
    split
    · simp [hp]
    · rfl
  have hcand : ∀ i, pe (exportCandidate settings baseName i) =
      pathExists (exportCandidate settings baseName i) :=
    fun i => hne _ (exportCandidate_ne_folder settings baseName i)
  have hex : ∃ i, pe (exportCandidate settings baseName i) = false := by
    obtain ⟨k, hk⟩ := exists_free_numbered settings baseName pathExists taken hfin
    exact ⟨k + 1, by rw [hcand]; exact hk⟩
  have hfree := Nat.find_spec hex
  have hmin : ∀ i, i < Nat.find hex → pe (exportCandidate settings baseName i) = true := by
    intro i hi
    have := Nat.find_min hex hi
    simpa using this
  refine ⟨Nat.find hex + 1, exportCandidate settings baseName (Nat.find hex), ?_, ?_, ?_, ?_⟩
  · intro fuel' hfuel
    rw [createExportPath_eq_loop settings hts, ← hpe]
    have key := createExportPath_loop_finds settings hts pe baseName (Nat.find hex) 0 fuel'
      (fun i _ hi => hmin i (by omega)) (by rw [Nat.zero_add]; exact hfree) (by omega)
    simpa only [Nat.zero_add] using key
  · rw [← hcand]; exact hfree
  · intro h0
    have h0' : pe (exportCandidate settings baseName 0) = false := by rw [hcand]; exact h0
    have hz : Nat.find hex = 0 := by
      by_contra hpos
      have := hmin 0 (Nat.pos_of_ne_zero hpos)
      rw [h0'] at this
      exact Bool.noConfusion this
    rw [hz]
    rfl
  · intro h1
    have hpos : Nat.find hex ≠ 0 := by
      intro hz
      rw [hz, hcand] at hfree
      have : pathExists (firstExportPath settings baseName) = false := hfree
      rw [h1] at this
      exact Bool.noConfusion this
    obtain ⟨m, hm⟩ : ∃ m, Nat.find hex = m + 1 := ⟨Nat.find hex - 1, by omega⟩
    refine ⟨m + 1, by omega, by rw [hm]; rfl, ?_⟩
    intro j hj1 hjm
    obtain ⟨j', rfl⟩ : ∃ j', j = j' + 1 := ⟨j - 1, by omega⟩
    have := hmin (j' + 1) (by omega)
    rw [hcand] at this
    exact this

/-- Witness of C5: `Exports/notes.md` exists already and the base name is
`notes`. -/
theorem createExportPath_returns_first_free_witness :
    ∃ (fuel : Nat) (path : String),
      (∀ fuel', fuel ≤ fuel' →
        createExportPath settingsNoTimestamp "2026-11-04T12:34:56.789Z"
          (fun p => p == "Exports/notes.md") "notes" fuel' = some (.ok path)) ∧
      (fun p : String => p == "Exports/notes.md") path = false ∧
      ((fun p : String => p == "Exports/notes.md")
          (firstExportPath settingsNoTimestamp "notes") = false →
        path = firstExportPath settingsNoTimestamp "notes") ∧
      ((fun p : String => p == "Exports/notes.md")
          (firstExportPath settingsNoTimestamp "notes") = true →
        ∃ k, 1 ≤ k ∧ path = numberedExportPath settingsNoTimestamp "notes" k ∧
          ∀ j, 1 ≤ j → j < k →
            (fun p : String => p == "Exports/notes.md")
              (numberedExportPath settingsNoTimestamp "notes" j) = true) :=
  createExportPath_returns_first_free.1 settingsNoTimestamp "2026-11-04T12:34:56.789Z" "notes"
    (fun p => p == "Exports/notes.md") ["Exports/notes.md"] rfl
    (fun p h => by simpa using h)

/-- C6 (the code departs from the claim): with `includeTimestamp` on, as soon
as the first candidate `<exportLocation>/<baseName>-<timestamp>.<ext>` exists,
`createExportPath` throws a `ReferenceError` instead of returning a numbered
path, and `exportFileContents` ends in its `catch` block. -/
theorem createExportPath_timestamp_collision_throws (settings : Settings)
    (now baseName : String) (pathExists : String → Bool) (fuel : Nat)
    (hts : settings.includeTimestamp = true)
    (htaken : pathExists (firstExportPath settings (baseName ++ "-" ++ timestamp now)) = true) :
    createExportPath settings now pathExists baseName (fuel + 1) =
      some (.error "ReferenceError: timestamp is not defined") := by
  have htaken' : (if (!pathExists settings.exportLocation) = true then
        fun p => p == settings.exportLocation || pathExists p
      else pathExists) (firstExportPath settings (baseName ++ "-" ++ timestamp now)) = true := by
    split
    · simp [htaken]
    · exact htaken
  unfold firstExportPath at htaken'
  simp only [createExportPath, hts, if_true, createExportPath.loop, htaken']

/-- Witness of C6: the default settings, a second export of `out` within the
same second. -/
theorem createExportPath_timestamp_collision_throws_witness :
    DEFAULT_SETTINGS.includeTimestamp = true ∧
    (fun p : String => p == "Exports/out-2026-11-04T12-34-56.md")
      (firstExportPath DEFAULT_SETTINGS ("out" ++ "-" ++ timestamp "2026-11-04T12:34:56.789Z"))
      = true ∧
    createExportPath DEFAULT_SETTINGS "2026-11-04T12:34:56.789Z"
        (fun p => p == "Exports/out-2026-11-04T12-34-56.md") "out" (9 + 1) =
      some (.error "ReferenceError: timestamp is not defined") :=
  ⟨rfl, by decide,
    createExportPath_timestamp_collision_throws DEFAULT_SETTINGS "2026-11-04T12:34:56.789Z" "out"
      (fun p => p == "Exports/out-2026-11-04T12-34-56.md") 9 rfl (by decide)⟩

/-! ### Record paths -/

theorem splitOnChar_ne_nil (sep : Char) : ∀ s : List Char, splitOnChar sep s ≠ []
  | [] => by simp [splitOnChar]
  | c :: cs => by
      rw [splitOnChar]
      split
      · simp
      · split <;> simp

theorem splitOnChar_of_not_mem (sep : Char) :
    ∀ s : List Char, sep ∉ s → splitOnChar sep s = [s]
  | [], _ => by simp [splitOnChar]
  | c :: cs, h => by
      have hc : c ≠ sep := fun e => h (by simp [e])
      have hcs : sep ∉ cs := fun e => h (by simp [e])
      rw [splitOnChar, if_neg hc, splitOnChar_of_not_mem sep cs hcs]

theorem splitOnChar_append_sep (sep : Char) (leaf : List Char) (hleaf : sep ∉ leaf) :
    ∀ dir : List Char,
      splitOnChar sep (dir ++ sep :: leaf) = splitOnChar sep dir ++ [leaf]
  | [] => by
      simp [splitOnChar, splitOnChar_of_not_mem sep leaf hleaf]
  | c :: dir => by
      have ih := splitOnChar_append_sep sep leaf hleaf dir
      rw [List.cons_append, splitOnChar, splitOnChar, ih]
      by_cases hc : c = sep
      · simp [hc]
      · simp only [hc, if_false]
        cases hsplit : splitOnChar sep dir with
        | nil => exact absurd hsplit (splitOnChar_ne_nil sep dir)
        | cons piece pieces => simp

theorem joinWithChar_splitOnChar (sep : Char) :
    ∀ s : List Char, joinWithChar sep (splitOnChar sep s) = s
  | [] => by simp [splitOnChar, joinWithChar]
  | c :: cs => by
      have ih := joinWithChar_splitOnChar sep cs
      rw [splitOnChar]
      cases hsplit : splitOnChar sep cs with
      | nil => exact absurd hsplit (splitOnChar_ne_nil sep cs)
      | cons piece pieces =>
          rw [hsplit] at ih
          by_cases hc : c = sep
          · simp only [hc, if_true]
            rw [joinWithChar, ih]
            · simp
            · simp
          · simp only [hc, if_false]
            cases pieces with
            | nil =>
                simp only [joinWithChar] at ih ⊢
                rw [ih]
            | cons next pieces =>
                simp only [joinWithChar] at ih ⊢
                rw [← ih]
                simp

theorem replaceFirst_prefix (pattern rest : List Char) (hne : pattern ≠ []) :
    replaceFirst pattern [] (pattern ++ rest) = rest := by
  cases hp : pattern ++ rest with
  | nil =>
      have : pattern = [] := (List.append_eq_nil.mp hp).1
      exact absurd this hne
  | cons c cs =>
      rw [replaceFirst, ← hp]
      have hpre : pattern.isPrefixOf (pattern ++ rest) = true := by
        rw [List.isPrefixOf_iff_prefix]
        exact List.prefix_append pattern rest
      simp [hpre]

theorem relativePath_of_dir_leaf (file : TFile) (dir leaf : String)
    (hpath : file.path = dir ++ "/" ++ leaf) (hleaf : '/' ∉ leaf.data) :
    relativePath file = leaf := by
  have hdata : file.path.data = dir.data ++ '/' :: leaf.data := by
    rw [hpath]
    simp [String.data_append]
  have hcontains : file.path.data.contains '/' = true := by
    rw [hdata]
    simp
  unfold relativePath
  rw [if_pos hcontains, hdata, splitOnChar_append_sep '/' leaf.data hleaf dir.data,
    List.dropLast_concat, joinWithChar_splitOnChar]
  have : dir.data ++ '/' :: leaf.data = (dir.data ++ ['/']) ++ leaf.data := by simp
  rw [this, replaceFirst_prefix _ _ (by simp)]


/-- C9, as stated, fails: the record of `root/sub/a.md`, selected under the
root folder `root`, has the path `a.md` and not `sub/a.md`. -/
theorem processSelectedFiles_path_not_root_relative :
    ¬ (∀ (root : TFolder) (file : TFile) (rest content : String)
        (read : TFile → Option String),
        file.path = root.path ++ "/" ++ rest → read file = some content →
        (processSelectedFiles.loop read [file] []).map (·.path) = [rest]) := by
  intro h
  have := h (.mk "root" "root" []) ⟨"a.md", "root/sub/a.md", "md", 5⟩ "sub/a.md" "hello"
    (fun _ => some "hello") (by decide) rfl
  revert this
  decide

theorem processSelectedFiles_loop_eq_map (read : TFile → Option String) :
    ∀ (files : List TFile) (fileContents : List FileRecord),
      processSelectedFiles.loop read files fileContents =
        fileContents ++ files.map (processSelectedFiles.record read)
  | [], fileContents => by simp [processSelectedFiles.loop]
  | file :: rest, fileContents => by
      rw [processSelectedFiles.loop]
      cases hread : read file <;>
        simp [processSelectedFiles_loop_eq_map read rest, processSelectedFiles.record, hread]

/-- C9, amended: the record of a selected file that was read has as path the
last segment of the file's path, the text after its last `/`, whatever folder
is being aggregated; a file whose path has no `/` gets its name. -/
theorem processSelectedFiles_path_is_last_segment (read : TFile → Option String)
    (files : List TFile) (i : Nat) (file : TFile) (content : String)
    (hfile : files[i]? = some file) (hread : read file = some content) :
    (∀ dir leaf : String, file.path = dir ++ "/" ++ leaf → '/' ∉ leaf.data →
      (processSelectedFiles.loop read files [])[i]? =
        some { name := file.name, path := leaf, content := content, size := file.size }) ∧
    ('/' ∉ file.path.data →
      (processSelectedFiles.loop read files [])[i]? =
        some { name := file.name, path := file.name, content := content, size := file.size }) := by
  have hrec : (processSelectedFiles.loop read files [])[i]? =
      some (processSelectedFiles.record read file) := by
    rw [processSelectedFiles_loop_eq_map, List.nil_append, List.getElem?_map, hfile]
    rfl
  constructor
  · intro dir leaf hpath hleaf
    rw [hrec]
    simp only [processSelectedFiles.record, hread,
      relativePath_of_dir_leaf file dir leaf hpath hleaf]
  · intro hno
    have hcontains : ¬ (file.path.data.contains '/' = true) := by simpa using hno
    rw [hrec]
    simp only [processSelectedFiles.record, hread, relativePath, hcontains, if_false,
      Bool.false_eq_true]

/-- Witness of C9 amended: `root/sub/a.md`, selected second, gives the record
path `a.md`. -/
theorem processSelectedFiles_path_is_last_segment_witness :
    (processSelectedFiles.loop (fun _ => some "hello")
        [{ name := "b.md", path := "root/b.md", extension := "md", size := 5 },
         { name := "a.md", path := "root/sub/a.md", extension := "md", size := 5 }] [])[1]? =
      some { name := "a.md", path := "a.md", content := "hello", size := 5 } :=
  (processSelectedFiles_path_is_last_segment (fun _ => some "hello")
    [{ name := "b.md", path := "root/b.md", extension := "md", size := 5 },
     { name := "a.md", path := "root/sub/a.md", extension := "md", size := 5 }] 1
    { name := "a.md", path := "root/sub/a.md", extension := "md", size := 5 } "hello" rfl rfl).1
    "root/sub" "a.md" (by decide) (by decide)

/-! ### Single-file operations -/

/-- C10, as stated, fails: for the eligible file `sub/a.md` the heading of the
copied text carries the full path `sub/a.md`, not the name `a.md`. -/
theorem copyFileContents_heading_not_file_name :
    ¬ (∀ (host : Host) (settings : Settings) (now : String) (read : TFile → Option String)
        (file : TFile) (content : String),
        validFilesFilter host.toLowerCase settings file = true → read file = some content →
        settings.outputFormat = "markdown" → settings.includeFileNames = true →
        copyFileContents host settings now read file =
          .copied ("# " ++ file.name ++ "\n\n" ++ content)) := by
  intro h
  have := h exampleHost DEFAULT_SETTINGS ""
    (fun _ => some "hello") ⟨"a.md", "sub/a.md", "md", 5⟩ "hello" (by decide) rfl rfl rfl
  revert this
  decide

theorem formatContent_single_markdown (host : Host) (settings : Settings) (now : String)
    (record : FileRecord) (hfmt : settings.outputFormat = "markdown")
    (hnames : settings.includeFileNames = true) :
    formatContent host settings now [record] none =
      "# " ++ record.path ++ "\n\n" ++ record.content := by
  have h1 : ¬ ("markdown" = "json") := by decide
  have h2 : ¬ ("markdown" = "plaintext") := by decide
  simp only [formatContent, hfmt, h1, h2, if_false]
  rw [formatAsMarkdown_eq]
  simp [markdownFolderHeading, markdownBlock, hnames, truthy, String.intercalate,
    String.intercalate.go, String.append_assoc]

/-! ### Links in the plain-text rendering -/

theorem replaceAll_append_of_no_match (re : Regex) (repl : Option (List Char) → List Char)
    (rest : List Char) :
    ∀ pre : List Char, (∀ c ∈ pre, ∀ cs, re.exec (c :: cs) = none) →
      re.replaceAll repl (pre ++ rest) 0 = pre ++ re.replaceAll repl rest 0
  | [], _ => by simp
  | c :: pre, h => by
      have hc := h c (by simp) (pre ++ rest)
      rw [List.cons_append, Regex.replaceAll, hc]
      simp only [List.cons_append, List.cons.injEq, true_and]
      exact replaceAll_append_of_no_match re repl rest pre
        (fun x hx cs => h x (List.mem_cons_of_mem _ hx) cs)

theorem replaceAll_eq_self (re : Regex) (repl : Option (List Char) → List Char)
    (s : List Char) (hnil : re.exec [] = none)
    (hcons : ∀ c ∈ s, ∀ cs, re.exec (c :: cs) = none) :
    re.replaceAll repl s 0 = s := by
  have := replaceAll_append_of_no_match re repl [] s hcons
  simpa [Regex.replaceAll, hnil] using this

theorem replaceAll_skip (re : Regex) (repl : Option (List Char) → List Char)
    (rest : List Char) :
    ∀ m : List Char, re.replaceAll repl (m ++ rest) m.length = re.replaceAll repl rest 0
  | [] => by simp
  | c :: m => by
      rw [List.cons_append, List.length_cons, Regex.replaceAll]
      exact replaceAll_skip re repl rest m

theorem manyGreedy_longest {α : Type} (p : Char → Bool) (k : List Char → Option α)
    (c : Char) (r : List Char) (v : α) (hc : p c = false) (hk : k (c :: r) = some v) :
    ∀ (a : List Char) (min : Nat), (∀ x ∈ a, p x = true) → min ≤ a.length →
      Regex.manyGreedy p k min none (a ++ c :: r) = some v
  | [], min, _, hmin => by
      have h0 : min = 0 := by simpa using hmin
      simp [Regex.manyGreedy, hc, h0, hk]
  | x :: a, min, ha, hmin => by
      have hx : p x = true := ha x (by simp)
      have ih := manyGreedy_longest p k c r v hc hk a (min - 1)
        (fun y hy => ha y (List.mem_cons_of_mem _ hy))
        (by simp only [List.length_cons] at hmin; omega)
      rw [List.cons_append, Regex.manyGreedy]
      simp only [hx, Option.map_none', Bool.true_and]
      simp [ih]

theorem headerRe_no_match (c : Char) (cs : List Char) (hc : c ≠ '#') :
    headerRe.exec (c :: cs) = none := by
  simp [headerRe, Regex.exec, Regex.run, Regex.manyGreedy, hc]

theorem boldRe_no_match (c : Char) (cs : List Char) (hc : c ≠ '*') :
    boldRe.exec (c :: cs) = none := by
  simp [boldRe, Regex.exec, Regex.run, Regex.lit, hc]

theorem italicRe_no_match (c : Char) (cs : List Char) (hc : c ≠ '*') :
    italicRe.exec (c :: cs) = none := by
  simp [italicRe, Regex.exec, Regex.run, Regex.lit, hc]

theorem inlineCodeRe_no_match (c : Char) (cs : List Char) (hc : c ≠ '`') :
    inlineCodeRe.exec (c :: cs) = none := by
  simp [inlineCodeRe, Regex.exec, Regex.run, Regex.lit, hc]

theorem codeBlockRe_no_match (c : Char) (cs : List Char) (hc : c ≠ '`') :
    codeBlockRe.exec (c :: cs) = none := by
  simp [codeBlockRe, Regex.exec, Regex.run, Regex.lit, hc]

theorem linkRe_no_match (c : Char) (cs : List Char) (hc : c ≠ '[') :
    linkRe.exec (c :: cs) = none := by
  simp [linkRe, Regex.exec, Regex.run, Regex.lit, hc]

theorem linkRe_match (text url post : List Char)
    (htext : text ≠ [] ∧ ∀ c ∈ text, c ≠ ']') (hurl : url ≠ [] ∧ ∀ c ∈ url, c ≠ ')') :
    linkRe.exec ('[' :: (text ++ ']' :: '(' :: (url ++ ')' :: post))) =
      some (post, some text) := by
  have hurl_len : 1 ≤ url.length := List.length_pos.mpr hurl.1
  have htext_len : 1 ≤ text.length := List.length_pos.mpr htext.1
  have hinner : ∀ cap : Option (List Char),
      Regex.manyGreedy (fun c => c != ')')
        (fun rest => (Regex.lit ')').run rest cap (fun rest cap => some (rest, cap)))
        1 none (url ++ ')' :: post) = some (post, cap) := by
    intro cap
    exact manyGreedy_longest _ _ ')' post (post, cap) (by simp)
      (by simp [Regex.lit, Regex.run]) url 1 (fun x hx => by simpa using hurl.2 x hx) hurl_len
  simp only [linkRe, Regex.exec, Regex.run, Regex.lit, beq_self_eq_true, if_true]
  rw [manyGreedy_longest _ _ ']' ('(' :: (url ++ ')' :: post)) (post, some text) (by simp) ?_
    text 1 (fun x hx => by simpa using htext.2 x hx) htext_len]
  simp only [Regex.run, beq_self_eq_true, if_true]
  have htake : (text ++ ']' :: '(' :: (url ++ ')' :: post)).take
      ((text ++ ']' :: '(' :: (url ++ ')' :: post)).length -
        (']' :: '(' :: (url ++ ')' :: post)).length) = text := by
    simp
  rw [htake]
  exact hinner (some text)


theorem linkRe_replaceAll_link (pre text url post : List Char)
    (hpre : ∀ c ∈ pre, c ≠ '[')
    (htext : text ≠ [] ∧ ∀ c ∈ text, c ≠ ']') (hurl : url ≠ [] ∧ ∀ c ∈ url, c ≠ ')')
    (hpost : ∀ c ∈ post, c ≠ '[') :
    linkRe.replaceAll dollar1 (pre ++ '[' :: (text ++ ']' :: '(' :: (url ++ ')' :: post))) 0 =
      pre ++ (text ++ post) := by
  rw [replaceAll_append_of_no_match linkRe dollar1 _ pre
    (fun c hc cs => linkRe_no_match c cs (hpre c hc))]
  congr 1
  rw [Regex.replaceAll, linkRe_match text url post htext hurl]
  have hsplit : text ++ ']' :: '(' :: (url ++ ')' :: post) =
      (text ++ ']' :: '(' :: (url ++ [')'])) ++ post := by simp
  have hlen : ('[' :: (text ++ ']' :: '(' :: (url ++ ')' :: post))).length - post.length - 1 =
      (text ++ ']' :: '(' :: (url ++ [')'])).length := by
    simp only [List.length_cons, List.length_append, List.length_nil]
    omega
  have hpos : ('[' :: (text ++ ']' :: '(' :: (url ++ ')' :: post))).length - post.length ≠ 0 := by
    simp only [List.length_cons, List.length_append]
    omega
  simp only [hpos, if_false, dollar1, hlen]
  rw [hsplit, replaceAll_skip, replaceAll_eq_self linkRe dollar1 post rfl
    (fun c hc cs => linkRe_no_match c cs (hpost c hc))]

theorem plainContent_of_link (pre text url post : String)
    (hpre : ∀ c ∈ pre.data, c ≠ '#' ∧ c ≠ '*' ∧ c ≠ '`' ∧ c ≠ '[')
    (htext : text ≠ "" ∧ ∀ c ∈ text.data, c ≠ '#' ∧ c ≠ '*' ∧ c ≠ '`' ∧ c ≠ ']')
    (hurl : url ≠ "" ∧ ∀ c ∈ url.data, c ≠ '#' ∧ c ≠ '*' ∧ c ≠ '`' ∧ c ≠ ')')
    (hpost : ∀ c ∈ post.data, c ≠ '#' ∧ c ≠ '*' ∧ c ≠ '`' ∧ c ≠ '[') :
    plainContent (pre ++ "[" ++ text ++ "](" ++ url ++ ")" ++ post) = pre ++ text ++ post := by
  have hdata : (pre ++ "[" ++ text ++ "](" ++ url ++ ")" ++ post).data =
      pre.data ++ '[' :: (text.data ++ ']' :: '(' :: (url.data ++ ')' :: post.data)) := by
    simp [String.data_append]
  have hplain : ∀ c ∈ pre.data ++ '[' :: (text.data ++ ']' :: '(' :: (url.data ++ ')' :: post.data)),
      c ≠ '#' ∧ c ≠ '*' ∧ c ≠ '`' := by
    intro c hc
    simp only [List.mem_append, List.mem_cons] at hc
    rcases hc with h | rfl | h | rfl | rfl | h | rfl | h
    · exact ⟨(hpre c h).1, (hpre c h).2.1, (hpre c h).2.2.1⟩
    · decide
    · exact ⟨(htext.2 c h).1, (htext.2 c h).2.1, (htext.2 c h).2.2.1⟩
    · decide
    · decide
    · exact ⟨(hurl.2 c h).1, (hurl.2 c h).2.1, (hurl.2 c h).2.2.1⟩
    · decide
    · exact ⟨(hpost c h).1, (hpost c h).2.1, (hpost c h).2.2.1⟩
  have htext' : text.data ≠ [] := fun h => htext.1 (String.ext h)
  have hurl' : url.data ≠ [] := fun h => hurl.1 (String.ext h)
  apply String.ext
  simp only [plainContent, hdata]
  rw [replaceAll_eq_self headerRe _ _ rfl (fun c hc cs => headerRe_no_match c cs (hplain c hc).1),
    replaceAll_eq_self boldRe _ _ rfl (fun c hc cs => boldRe_no_match c cs (hplain c hc).2.1),
    replaceAll_eq_self italicRe _ _ rfl (fun c hc cs => italicRe_no_match c cs (hplain c hc).2.1),
    replaceAll_eq_self inlineCodeRe _ _ rfl
      (fun c hc cs => inlineCodeRe_no_match c cs (hplain c hc).2.2),
    replaceAll_eq_self codeBlockRe _ _ rfl
      (fun c hc cs => codeBlockRe_no_match c cs (hplain c hc).2.2),
    linkRe_replaceAll_link pre.data text.data url.data post.data
      (fun c hc => (hpre c hc).2.2.2) ⟨htext', fun c hc => (htext.2 c hc).2.2.2⟩
      ⟨hurl', fun c hc => (hurl.2 c hc).2.2.2⟩ (fun c hc => (hpost c hc).2.2.2)]
  simp [String.data_append]


/-! ### Fenced code blocks in the plain-text rendering -/

theorem inlineCodeRe_match_pair (rest : List Char) :
    inlineCodeRe.exec ('`' :: '`' :: rest) = some (rest, some []) := by
  simp [inlineCodeRe, Regex.exec, Regex.run, Regex.lit, Regex.manyLazy]

theorem inlineCodeRe_no_match_newline (rest : List Char) :
    inlineCodeRe.exec ('`' :: '\n' :: rest) = none := by
  have h : isDot '\n' = false := by decide
  simp [inlineCodeRe, Regex.exec, Regex.run, Regex.lit, Regex.manyLazy, h]

theorem codeBlockRe_no_match_newline (rest : List Char) :
    codeBlockRe.exec ('`' :: '\n' :: rest) = none := by
  simp [codeBlockRe, Regex.exec, Regex.run, Regex.lit]

theorem inlineCodeRe_replaceAll_fence (body : List Char) (hbody : ∀ c ∈ body, c ≠ '`') :
    inlineCodeRe.replaceAll dollar1
        ('`' :: '`' :: '`' :: '\n' :: (body ++ ['\n', '`', '`', '`'])) 0 =
      '`' :: '\n' :: (body ++ ['\n', '`']) := by
  have hpre : ∀ c ∈ '\n' :: (body ++ ['\n']), ∀ cs, inlineCodeRe.exec (c :: cs) = none := by
    intro c hc cs
    apply inlineCodeRe_no_match
    simp only [List.mem_cons, List.mem_append, List.mem_singleton, List.not_mem_nil,
      or_false] at hc
    rcases hc with rfl | h | rfl
    · decide
    · exact hbody c h
    · decide
  have htail : inlineCodeRe.replaceAll dollar1 ['`', '`', '`'] 0 = ['`'] := by decide
  have hshape : '\n' :: (body ++ ['\n', '`', '`', '`']) =
      ('\n' :: (body ++ ['\n'])) ++ ['`', '`', '`'] := by simp
  rw [Regex.replaceAll, inlineCodeRe_match_pair]
  simp only [List.length_cons, Nat.add_sub_cancel_left, dollar1, List.nil_append]
  have hlen : (body ++ ['\n', '`', '`', '`']).length + 1 + 1 + 1 + 1 -
      ((body ++ ['\n', '`', '`', '`']).length + 1 + 1) ≠ 0 := by omega
  have hlen' : (body ++ ['\n', '`', '`', '`']).length + 1 + 1 + 1 + 1 -
      ((body ++ ['\n', '`', '`', '`']).length + 1 + 1) - 1 = 1 := by omega
  simp only [hlen, if_false, hlen']
  rw [Regex.replaceAll, Regex.replaceAll, inlineCodeRe_no_match_newline]
  simp only [List.cons.injEq, true_and]
  rw [hshape, replaceAll_append_of_no_match inlineCodeRe dollar1 _ _ hpre, htail]
  simp

theorem codeBlockRe_replaceAll_fence (body : List Char) (hbody : ∀ c ∈ body, c ≠ '`') :
    codeBlockRe.replaceAll (fun _ => "[CODE BLOCK]".data)
        ('`' :: '\n' :: (body ++ ['\n', '`'])) 0 =
      '`' :: '\n' :: (body ++ ['\n', '`']) := by
  have hpre : ∀ c ∈ '\n' :: (body ++ ['\n']), ∀ cs, codeBlockRe.exec (c :: cs) = none := by
    intro c hc cs
    apply codeBlockRe_no_match
    simp only [List.mem_cons, List.mem_append, List.mem_singleton, List.not_mem_nil,
      or_false] at hc
    rcases hc with rfl | h | rfl
    · decide
    · exact hbody c h
    · decide
  have htail : codeBlockRe.replaceAll (fun _ => "[CODE BLOCK]".data) ['`'] 0 = ['`'] := by
    decide
  have hshape : '\n' :: (body ++ ['\n', '`']) = ('\n' :: (body ++ ['\n'])) ++ ['`'] := by simp
  rw [Regex.replaceAll, codeBlockRe_no_match_newline]
  simp only [List.cons.injEq, true_and]
  rw [hshape, replaceAll_append_of_no_match codeBlockRe _ _ _ hpre, htail]

theorem plainContent_of_fence (body : String)
    (hbody : ∀ c ∈ body.data, c ≠ '#' ∧ c ≠ '*' ∧ c ≠ '`' ∧ c ≠ '[') :
    plainContent ("```\n" ++ body ++ "\n```") = "`\n" ++ body ++ "\n`" := by
  have hdata : ("```\n" ++ body ++ "\n```").data =
      '`' :: '`' :: '`' :: '\n' :: (body.data ++ ['\n', '`', '`', '`']) := by
    simp [String.data_append]
  have hin : ∀ c ∈ '`' :: '`' :: '`' :: '\n' :: (body.data ++ ['\n', '`', '`', '`']),
      c ≠ '#' ∧ c ≠ '*' := by
    intro c hc
    simp only [List.mem_cons, List.mem_append, List.not_mem_nil, or_false] at hc
    rcases hc with rfl | rfl | rfl | rfl | h | rfl | rfl | rfl | rfl
    all_goals first | decide | exact ⟨(hbody c h).1, (hbody c h).2.1⟩
  have hout : ∀ c ∈ '`' :: '\n' :: (body.data ++ ['\n', '`']), c ≠ '[' := by
    intro c hc
    simp only [List.mem_cons, List.mem_append, List.not_mem_nil, or_false] at hc
    rcases hc with rfl | rfl | h | rfl | rfl
    all_goals first | decide | exact (hbody c h).2.2.2
  apply String.ext
  simp only [plainContent, hdata]
  rw [replaceAll_eq_self headerRe _ _ rfl (fun c hc cs => headerRe_no_match c cs (hin c hc).1),
    replaceAll_eq_self boldRe _ _ rfl (fun c hc cs => boldRe_no_match c cs (hin c hc).2),
    replaceAll_eq_self italicRe _ _ rfl (fun c hc cs => italicRe_no_match c cs (hin c hc).2),
    inlineCodeRe_replaceAll_fence body.data (fun c hc => (hbody c hc).2.2.1),
    codeBlockRe_replaceAll_fence body.data (fun c hc => (hbody c hc).2.2.1),
    replaceAll_eq_self linkRe _ _ rfl (fun c hc cs => linkRe_no_match c cs (hout c hc))]
  simp [String.data_append]


/-! ### Plain-text rendering: the two claims -/

/-- C7 (the code departs from the claim): the content made of a fenced code
block comes out of the stripping with one backtick left on each side and its
body intact, not as `[CODE BLOCK]`; the inline-code replacement, which runs
first, has already consumed the fences.  This holds for every body without
markup characters. -/
theorem plainContent_fenced_block_not_replaced :
    plainContent "```\ncode\n```" = "`\ncode\n`" ∧
    plainContent "```\ncode\n```" ≠ "[CODE BLOCK]" ∧
    formatAsPlainText exampleHost.toUpperCase DEFAULT_SETTINGS
        [{ name := "a.md", path := "a.md", content := "```\ncode\n```", size := 12 }] none =
      "FILE: a.md\n\n`\ncode\n`" ∧
    plainContent "before\n```js\nlet x = 1;\n```\nafter" =
      "before\n`js\nlet x = 1;\n`\nafter" ∧
    (∀ body : String, (∀ c ∈ body.data, c ≠ '#' ∧ c ≠ '*' ∧ c ≠ '`' ∧ c ≠ '[') →
      plainContent ("```\n" ++ body ++ "\n```") = "`\n" ++ body ++ "\n`") :=
  ⟨by decide, by decide, by decide, by decide, plainContent_of_fence⟩

/-- Witness of C7: the body `let x = 1;`. -/
theorem plainContent_fenced_block_not_replaced_witness :
    plainContent ("```\n" ++ "let x = 1;" ++ "\n```") = "`\n" ++ "let x = 1;" ++ "\n`" :=
  plainContent_fenced_block_not_replaced.2.2.2.2 "let x = 1;" (by decide)

/-- C8: the content `# Title`, newline, `**bold** and *em* and` inline `code`
is stripped to `Title`, newline, `bold and em and code`, which holds no `#`,
`*` or backtick; the link `[text](url)` becomes `text`, and so does every
link whose text, address and surroundings hold no markup character. -/
theorem plainContent_strips_markup :
    plainContent "# Title\n**bold** and *em* and `code`" = "Title\nbold and em and code" ∧
    (plainContent "# Title\n**bold** and *em* and `code`").data.all
        (fun c => c != '#' && c != '*' && c != '`') = true ∧
    plainContent "[text](url)" = "text" ∧
    (∀ pre text url post : String,
      (∀ c ∈ pre.data, c ≠ '#' ∧ c ≠ '*' ∧ c ≠ '`' ∧ c ≠ '[') →
      (text ≠ "" ∧ ∀ c ∈ text.data, c ≠ '#' ∧ c ≠ '*' ∧ c ≠ '`' ∧ c ≠ ']') →
      (url ≠ "" ∧ ∀ c ∈ url.data, c ≠ '#' ∧ c ≠ '*' ∧ c ≠ '`' ∧ c ≠ ')') →
      (∀ c ∈ post.data, c ≠ '#' ∧ c ≠ '*' ∧ c ≠ '`' ∧ c ≠ '[') →
      plainContent (pre ++ "[" ++ text ++ "](" ++ url ++ ")" ++ post) = pre ++ text ++ post) :=
  ⟨by decide, by decide, by decide, plainContent_of_link⟩

/-- Witness of C8: a link inside a sentence. -/
theorem plainContent_strips_markup_witness :
    plainContent ("see " ++ "[" ++ "the notes" ++ "](" ++ "https://example.org/a.md" ++ ")" ++
        " here") = "see " ++ "the notes" ++ " here" :=
  plainContent_strips_markup.2.2.2 "see " "the notes" "https://example.org/a.md" " here"
    (by decide) (by decide) (by decide) (by decide)




/-! ### Batch aggregation -/

/-- C12: whatever reads fail, the loop of `processSelectedFiles` runs over the
whole selection and yields one record per selected file, at the same
position; the record of a file whose read fails is the placeholder with the
file's name as name and path, the content `*Error reading file*` and size 0,
the record of a file that was read carries the content read and the file's
size; and the operation then goes on to format these records (to the
clipboard always, to a file as soon as `createExportPath` returns a path). -/
theorem processSelectedFiles_one_record_per_file (read : TFile → Option String)
    (files : List TFile) (i : Nat) (file : TFile) (hfile : files[i]? = some file) :
    (processSelectedFiles.loop read files []).length = files.length ∧
    (read file = none →
      (processSelectedFiles.loop read files [])[i]? =
        some { name := file.name, path := file.name, content := "*Error reading file*",
               size := 0 }) ∧
    (∀ content, read file = some content →
      ∃ r, (processSelectedFiles.loop read files [])[i]? = some r ∧
        r.name = file.name ∧ r.content = content ∧ r.size = file.size) ∧
    (∀ (host : Host) (settings : Settings) (nowFormat nowExport : String)
        (pathExists : String → Bool) (fuel : Nat) (folderName : String),
      processSelectedFiles host settings nowFormat nowExport read pathExists fuel files
          folderName true =
        some (.ok (.copied (formatContent host settings nowFormat
          (processSelectedFiles.loop read files []) (some folderName)))) ∧
      ∀ exportPath,
        createExportPath settings nowExport pathExists (folderName ++ "-contents") fuel =
          some (.ok exportPath) →
        processSelectedFiles host settings nowFormat nowExport read pathExists fuel files
            folderName false =
          some (.ok (.exported exportPath (formatContent host settings nowFormat
            (processSelectedFiles.loop read files []) (some folderName))))) := by
  have hrec : (processSelectedFiles.loop read files [])[i]? =
      some (processSelectedFiles.record read file) := by
    rw [processSelectedFiles_loop_eq_map, List.nil_append, List.getElem?_map, hfile]
    rfl
  refine ⟨?_, ?_, ?_, ?_⟩
  · rw [processSelectedFiles_loop_eq_map]
    simp
  · intro hread
    rw [hrec]
    simp only [processSelectedFiles.record, hread]
  · intro content hread
    refine ⟨processSelectedFiles.record read file, hrec, ?_, ?_, ?_⟩ <;>
      simp only [processSelectedFiles.record, hread]
  · intro host settings nowFormat nowExport pathExists fuel folderName
    refine ⟨by simp [processSelectedFiles], ?_⟩
    intro exportPath hpath
    simp [processSelectedFiles, hpath]

/-- Witness of C12: three files, the read of the second one fails. -/
theorem processSelectedFiles_one_record_per_file_witness :
    (processSelectedFiles.loop (fun f => if f.name = "b.md" then none else some "hello")
        (getAllFilesInFolder exampleFolder) []).length =
      (getAllFilesInFolder exampleFolder).length ∧
    (processSelectedFiles.loop (fun f => if f.name = "b.md" then none else some "hello")
        (getAllFilesInFolder exampleFolder) [])[1]? =
      some { name := "b.md", path := "b.md", content := "*Error reading file*", size := 0 } :=
  have h := processSelectedFiles_one_record_per_file
    (fun f => if f.name = "b.md" then none else some "hello")
    (getAllFilesInFolder exampleFolder) 1
    { name := "b.md", path := "root/sub/b.md", extension := "md", size := 5 } (by decide)
  ⟨h.1, h.2.1 (by decide)⟩


/-! ### Timestamp and extension of the export path -/

theorem colonOrPeriodRe_replaceAll :
    ∀ s : List Char,
      colonOrPeriodRe.replaceAll (fun _ => ['-']) s 0 = s.map dashForColonOrPeriod
  | [] => by simp [Regex.replaceAll, Regex.exec, Regex.run, colonOrPeriodRe]
  | c :: cs => by
      have ih := colonOrPeriodRe_replaceAll cs
      rw [Regex.replaceAll]
      by_cases hc : (c == ':' || c == '.') = true
      · have hexec : colonOrPeriodRe.exec (c :: cs) = some (cs, none) := by
          simp only [colonOrPeriodRe, Regex.exec, Regex.run, hc, if_true]
        simp only [hexec, List.length_cons, Nat.add_sub_cancel_left, Nat.one_ne_zero, if_false,
          Nat.sub_self, ih, List.map_cons, dashForColonOrPeriod, hc, if_true]
        rfl
      · have hexec : colonOrPeriodRe.exec (c :: cs) = none := by
          simp only [colonOrPeriodRe, Regex.exec, Regex.run, hc, if_false]
          simp
        simp only [hexec, ih, List.map_cons, dashForColonOrPeriod, hc, if_false]
        simp

theorem dashForColonOrPeriod_ne (c : Char) :
    dashForColonOrPeriod c ≠ ':' ∧ dashForColonOrPeriod c ≠ '.' := by
  unfold dashForColonOrPeriod
  by_cases hc : (c == ':' || c == '.') = true
  · simp only [hc, if_true]
    decide
  · simp only [hc, if_false]
    simp only [Bool.or_eq_true, beq_iff_eq, not_or] at hc
    exact hc

theorem map_dash_of_plain :
    ∀ s : List Char, (∀ c ∈ s, c ≠ ':' ∧ c ≠ '.') → s.map dashForColonOrPeriod = s
  | [], _ => rfl
  | c :: cs, h => by
      have hc := h c (by simp)
      have hcs := map_dash_of_plain cs (fun x hx => h x (List.mem_cons_of_mem _ hx))
      simp [List.map_cons, hcs, dashForColonOrPeriod, hc.1, hc.2]

theorem timestamp_no_colon_no_period (now : String) :
    ':' ∉ (timestamp now).data ∧ '.' ∉ (timestamp now).data := by
  have hmem : ∀ c ∈ (timestamp now).data, ∃ x, dashForColonOrPeriod x = c := by
    intro c hc
    simp only [timestamp, colonOrPeriodRe_replaceAll] at hc
    have := List.mem_of_mem_take hc
    obtain ⟨x, _, hx⟩ := List.mem_map.mp this
    exact ⟨x, hx⟩
  constructor
  · intro h
    obtain ⟨x, hx⟩ := hmem _ h
    exact (dashForColonOrPeriod_ne x).1 hx
  · intro h
    obtain ⟨x, hx⟩ := hmem _ h
    exact (dashForColonOrPeriod_ne x).2 hx

theorem timestamp_of_iso (date hh mm ss ms : String)
    (hdate : ∀ c ∈ date.data, c ≠ ':' ∧ c ≠ '.') (hhh : ∀ c ∈ hh.data, c ≠ ':' ∧ c ≠ '.')
    (hmm : ∀ c ∈ mm.data, c ≠ ':' ∧ c ≠ '.') (hss : ∀ c ∈ ss.data, c ≠ ':' ∧ c ≠ '.')
    (hms : ms.length = 3) :
    timestamp (date ++ "T" ++ hh ++ ":" ++ mm ++ ":" ++ ss ++ "." ++ ms ++ "Z") =
      date ++ "T" ++ hh ++ "-" ++ mm ++ "-" ++ ss := by
  have hdata : (date ++ "T" ++ hh ++ ":" ++ mm ++ ":" ++ ss ++ "." ++ ms ++ "Z").data =
      (date.data ++ 'T' :: (hh.data ++ ':' :: (mm.data ++ ':' :: ss.data))) ++
        ('.' :: (ms.data ++ ['Z'])) := by
    simp [String.data_append]
  have hms' : ms.data.length = 3 := hms
  have hkeep : (date.data ++ 'T' :: (hh.data ++ ':' :: (mm.data ++ ':' :: ss.data))).map
      dashForColonOrPeriod =
      date.data ++ 'T' :: (hh.data ++ '-' :: (mm.data ++ '-' :: ss.data)) := by
    simp only [List.map_append, List.map_cons, map_dash_of_plain _ hdate,
      map_dash_of_plain _ hhh, map_dash_of_plain _ hmm, map_dash_of_plain _ hss]
    rfl
  apply String.ext
  simp only [timestamp, colonOrPeriodRe_replaceAll, hdata]
  rw [List.map_append, hkeep, List.take_left']
  · simp [String.data_append]
  · simp only [List.length_append, List.length_map, List.length_cons, List.length_nil, hms']
    omega


theorem createExportPath_first_free (settings : Settings) (now baseName : String)
    (pathExists : String → Bool) (fuel : Nat)
    (hfree : pathExists (firstExportPath settings
      (if settings.includeTimestamp = true then baseName ++ "-" ++ timestamp now
        else baseName)) = false) :
    createExportPath settings now pathExists baseName (fuel + 1) =
      some (.ok (firstExportPath settings
        (if settings.includeTimestamp = true then baseName ++ "-" ++ timestamp now
          else baseName))) := by
  have hfree' : (if (!pathExists settings.exportLocation) = true then
        fun p => p == settings.exportLocation || pathExists p
      else pathExists) (firstExportPath settings
        (if settings.includeTimestamp = true then baseName ++ "-" ++ timestamp now
          else baseName)) = false := by
    split
    · simp [hfree, firstExportPath_ne_folder]
    · exact hfree
  unfold firstExportPath at hfree' ⊢
  simp only [createExportPath, createExportPath.loop, hfree', Bool.false_eq_true, if_false]

/-- C14, as stated, fails: the timestamp made from `2026-11-04T12:34:56.789Z`
is `2026-11-04T12-34-56`, seconds included, not `2026-11-04T12-34`. -/
theorem timestamp_keeps_seconds :
    timestamp "2026-11-04T12:34:56.789Z" = "2026-11-04T12-34-56" ∧
    timestamp "2026-11-04T12:34:56.789Z" ≠ "2026-11-04T12-34" := by
  decide

/-- C14, amended: the timestamp holds no colon and no period; for a time
`<date>T<hh>:<mm>:<ss>.<mmm>Z` it is `<date>T<hh>-<mm>-<ss>`, the milliseconds
and the `Z` being dropped and the seconds kept; with `includeTimestamp` on, a
free first path is `<exportLocation>/<baseName>-<timestamp>.<ext>`; and the
extension is `json` for the output format `json`, `txt` for `plaintext` and
`md` for every other value. -/
theorem timestamp_and_extension :
    (∀ now : String, ':' ∉ (timestamp now).data ∧ '.' ∉ (timestamp now).data) ∧
    (∀ date hh mm ss ms : String,
      (∀ c ∈ date.data, c ≠ ':' ∧ c ≠ '.') → (∀ c ∈ hh.data, c ≠ ':' ∧ c ≠ '.') →
      (∀ c ∈ mm.data, c ≠ ':' ∧ c ≠ '.') → (∀ c ∈ ss.data, c ≠ ':' ∧ c ≠ '.') →
      ms.length = 3 →
      timestamp (date ++ "T" ++ hh ++ ":" ++ mm ++ ":" ++ ss ++ "." ++ ms ++ "Z") =
        date ++ "T" ++ hh ++ "-" ++ mm ++ "-" ++ ss) ∧
    (∀ (settings : Settings) (now baseName : String) (pathExists : String → Bool) (fuel : Nat),
      settings.includeTimestamp = true →
      pathExists (settings.exportLocation ++ "/" ++ (baseName ++ "-" ++ timestamp now) ++ "." ++
        exportExtension settings) = false →
      createExportPath settings now pathExists baseName (fuel + 1) =
        some (.ok (settings.exportLocation ++ "/" ++ (baseName ++ "-" ++ timestamp now) ++ "." ++
          exportExtension settings))) ∧
    (∀ settings : Settings,
      (settings.outputFormat = "json" → exportExtension settings = "json") ∧
      (settings.outputFormat = "plaintext" → exportExtension settings = "txt") ∧
      (settings.outputFormat ≠ "json" → settings.outputFormat ≠ "plaintext" →
        exportExtension settings = "md")) := by
  refine ⟨timestamp_no_colon_no_period, timestamp_of_iso, ?_, ?_⟩
  · intro settings now baseName pathExists fuel hts hfree
    have h := createExportPath_first_free settings now baseName pathExists fuel
    simp only [hts, if_true, firstExportPath] at h
    exact h hfree
  · intro settings
    refine ⟨?_, ?_, ?_⟩
    · intro h
      simp [exportExtension, h]
    · intro h
      have hne : ¬ ("plaintext" = "json") := by decide
      simp [exportExtension, h, hne]
    · intro h₁ h₂
      simp [exportExtension, h₁, h₂]

/-- Witness of C14 amended: the time `2026-11-04T12:34:56.789Z` and a first
export of `out` with the default settings. -/
theorem timestamp_and_extension_witness :
    timestamp ("2026-11-04" ++ "T" ++ "12" ++ ":" ++ "34" ++ ":" ++ "56" ++ "." ++ "789" ++ "Z") =
      "2026-11-04" ++ "T" ++ "12" ++ "-" ++ "34" ++ "-" ++ "56" ∧
    createExportPath DEFAULT_SETTINGS "2026-11-04T12:34:56.789Z" (fun _ => false) "out" (0 + 1) =
      some (.ok (DEFAULT_SETTINGS.exportLocation ++ "/" ++
        ("out" ++ "-" ++ timestamp "2026-11-04T12:34:56.789Z") ++ "." ++
        exportExtension DEFAULT_SETTINGS)) :=
  ⟨timestamp_and_extension.2.1 "2026-11-04" "12" "34" "56" "789"
      (by decide) (by decide) (by decide) (by decide) (by decide),
    timestamp_and_extension.2.2.1 DEFAULT_SETTINGS "2026-11-04T12:34:56.789Z" "out"
      (fun _ => false) 0 rfl rfl⟩


/-! ### Folder operations -/

theorem filterMap_readFile_map_read (files : List TFile) :
    (files.map Effect.read).filterMap Effect.readFile? = files := by
  induction files with
  | nil => rfl
  | cons f rest ih => simp [List.filterMap_cons, Effect.readFile?, ih]

theorem filterMap_writtenText_map_read (files : List TFile) :
    (files.map Effect.read).filterMap Effect.writtenText? = [] := by
  induction files with
  | nil => rfl
  | cons f rest ih => simp [List.filterMap_cons, Effect.writtenText?, ih]

theorem openModal_not_mem_map_read (fs files : List TFile) :
    Effect.openModal fs ∉ files.map Effect.read := by
  simp

theorem processSelectedFiles_effects_reads (host : Host) (settings : Settings)
    (nowFormat nowExport : String) (read : TFile → Option String)
    (pathExists : String → Bool) (fuel : Nat) (files : List TFile) (folderName : String)
    (toClipboard : Bool) :
    (processSelectedFiles.effects host settings nowFormat nowExport read pathExists fuel files
      folderName toClipboard).filterMap Effect.readFile? = files := by
  unfold processSelectedFiles.effects createExportPath.effects
  simp only [List.filterMap_append, filterMap_readFile_map_read]
  cases toClipboard
  · cases hexists : pathExists settings.exportLocation <;>
      cases hpath : createExportPath settings nowExport pathExists (folderName ++ "-contents")
        fuel with
      | none => simp [Effect.readFile?]
      | some r => cases r <;> simp [Effect.readFile?]
  · simp [Effect.readFile?]

theorem processSelectedFiles_effects_written (host : Host) (settings : Settings)
    (nowFormat nowExport : String) (read : TFile → Option String)
    (pathExists : String → Bool) (fuel : Nat) (files : List TFile) (folderName : String)
    (toClipboard : Bool) :
    ∀ text ∈ (processSelectedFiles.effects host settings nowFormat nowExport read pathExists
        fuel files folderName toClipboard).filterMap Effect.writtenText?,
      text = formatContent host settings nowFormat (processSelectedFiles.loop read files [])
        (some folderName) := by
  unfold processSelectedFiles.effects createExportPath.effects
  simp only [List.filterMap_append, filterMap_writtenText_map_read, List.nil_append]
  cases toClipboard
  · cases hexists : pathExists settings.exportLocation <;>
      cases hpath : createExportPath settings nowExport pathExists (folderName ++ "-contents")
        fuel with
      | none => simp [Effect.writtenText?]
      | some r => cases r <;> simp [Effect.writtenText?]
  · simp [Effect.writtenText?]

theorem openModal_not_mem_effects (host : Host) (settings : Settings)
    (nowFormat nowExport : String) (read : TFile → Option String)
    (pathExists : String → Bool) (fuel : Nat) (files : List TFile) (folderName : String)
    (toClipboard : Bool) (fs : List TFile) :
    Effect.openModal fs ∉ processSelectedFiles.effects host settings nowFormat nowExport read
      pathExists fuel files folderName toClipboard := by
  unfold processSelectedFiles.effects createExportPath.effects
  cases toClipboard
  · cases hexists : pathExists settings.exportLocation <;>
      cases hpath : createExportPath settings nowExport pathExists (folderName ++ "-contents")
        fuel with
      | none => simp
      | some r => cases r <;> simp
  · simp


theorem folderContents_of_no_valid (host : Host) (settings : Settings)
    (nowFormat nowExport : String) (read : TFile → Option String)
    (pathExists : String → Bool) (fuel : Nat) (selector : List TFile → Option (List TFile))
    (toClipboard : Bool) (folder : TFolder) (hvalid : validFiles host settings folder = []) :
    folderContents host settings nowFormat nowExport read pathExists fuel selector toClipboard
        folder =
      ⟨[.notice .noValidFiles], .done .noValidFiles⟩ := by
  simp [folderContents, hvalid]

theorem folderContents_of_modal (host : Host) (settings : Settings)
    (nowFormat nowExport : String) (read : TFile → Option String)
    (pathExists : String → Bool) (fuel : Nat) (selector : List TFile → Option (List TFile))
    (toClipboard : Bool) (folder : TFolder) (hvalid : validFiles host settings folder ≠ [])
    (hmodal : settings.showSelectionModal = true)
    (hcount : settings.selectionThreshold ≤ (validFiles host settings folder).length) :
    folderContents host settings nowFormat nowExport read pathExists fuel selector toClipboard
        folder =
      match selector (validFiles host settings folder) with
      | none => ⟨[.openModal (validFiles host settings folder)], .dismissed⟩
      | some selectedFiles =>
          if selectedFiles.length = 0 then
            ⟨[.openModal (validFiles host settings folder), .notice .noFilesSelected],
              .done .noFilesSelected⟩
          else
            ⟨.openModal (validFiles host settings folder) ::
                processSelectedFiles.effects host settings nowFormat nowExport read pathExists
                  fuel selectedFiles folder.name toClipboard,
              match processSelectedFiles host settings nowFormat nowExport read pathExists fuel
                  selectedFiles folder.name toClipboard with
              | none => .loopBound
              | some (.error e) => .unhandled e
              | some (.ok o) => .done o⟩ := by
  have hlen : (validFiles host settings folder).length ≠ 0 := by
    simpa [List.length_eq_zero] using hvalid
  simp only [folderContents, hlen, if_false, hmodal, Bool.true_and, ge_iff_le, hcount,
    decide_True, if_true]

theorem folderContents_of_direct (host : Host) (settings : Settings)
    (nowFormat nowExport : String) (read : TFile → Option String)
    (pathExists : String → Bool) (fuel : Nat) (selector : List TFile → Option (List TFile))
    (toClipboard : Bool) (folder : TFolder) (hvalid : validFiles host settings folder ≠ [])
    (hdirect : ¬ (settings.showSelectionModal = true ∧
      settings.selectionThreshold ≤ (validFiles host settings folder).length)) :
    folderContents host settings nowFormat nowExport read pathExists fuel selector toClipboard
        folder =
      match processSelectedFiles host settings nowFormat nowExport read pathExists fuel
          (validFiles host settings folder) folder.name toClipboard with
      | none =>
          ⟨processSelectedFiles.effects host settings nowFormat nowExport read pathExists fuel
            (validFiles host settings folder) folder.name toClipboard, .loopBound⟩
      | some (.error _) =>
          ⟨processSelectedFiles.effects host settings nowFormat nowExport read pathExists fuel
            (validFiles host settings folder) folder.name toClipboard ++ [.notice .failed],
            .done .failed⟩
      | some (.ok o) =>
          ⟨processSelectedFiles.effects host settings nowFormat nowExport read pathExists fuel
            (validFiles host settings folder) folder.name toClipboard, .done o⟩ := by
  have hlen : (validFiles host settings folder).length ≠ 0 := by
    simpa [List.length_eq_zero] using hvalid
  have hcond : (settings.showSelectionModal &&
      decide ((validFiles host settings folder).length ≥ settings.selectionThreshold)) = false := by
    cases hm : settings.showSelectionModal
    · rfl
    · simp only [Bool.true_and, decide_eq_false_iff_not, ge_iff_le]
      exact fun h => hdirect ⟨hm, h⟩
  simp only [folderContents, hlen, if_false, hcond, Bool.false_eq_true]

theorem folderContents_direct_effects (host : Host) (settings : Settings)
    (nowFormat nowExport : String) (read : TFile → Option String)
    (pathExists : String → Bool) (fuel : Nat) (selector : List TFile → Option (List TFile))
    (toClipboard : Bool) (folder : TFolder) (hvalid : validFiles host settings folder ≠ [])
    (hdirect : ¬ (settings.showSelectionModal = true ∧
      settings.selectionThreshold ≤ (validFiles host settings folder).length)) :
    (folderContents host settings nowFormat nowExport read pathExists fuel selector toClipboard
        folder).effects =
      processSelectedFiles.effects host settings nowFormat nowExport read pathExists fuel
        (validFiles host settings folder) folder.name toClipboard ∨
    (folderContents host settings nowFormat nowExport read pathExists fuel selector toClipboard
        folder).effects =
      processSelectedFiles.effects host settings nowFormat nowExport read pathExists fuel
        (validFiles host settings folder) folder.name toClipboard ++ [.notice .failed] := by
  rw [folderContents_of_direct host settings nowFormat nowExport read pathExists fuel selector
    toClipboard folder hvalid hdirect]
  cases processSelectedFiles host settings nowFormat nowExport read pathExists fuel
      (validFiles host settings folder) folder.name toClipboard with
  | none => exact Or.inl rfl
  | some r =>
      cases r with
      | error e => exact Or.inr rfl
      | ok o => exact Or.inl rfl


/-- C11: a folder operation whose filtered list is empty ends with the
no-valid-files notice and nothing else, the selector not being opened even
for a threshold of 0; when the filtered list is non-empty, the selection
modal is opened, on the filtered list, exactly when `showSelectionModal` is on
and the filtered count is at least `selectionThreshold`; otherwise the whole
filtered list is read and processed.  A count equal to the threshold opens
the modal, a count one below does not. -/
theorem folderContents_selector_threshold (host : Host) (settings : Settings)
    (nowFormat nowExport : String) (read : TFile → Option String)
    (pathExists : String → Bool) (fuel : Nat) (selector : List TFile → Option (List TFile))
    (toClipboard : Bool) (folder : TFolder) :
    copyFolderContents host settings nowFormat read selector folder =
      folderContents host settings nowFormat "" read (fun _ => false) 0 selector true folder ∧
    exportFolderContents host settings nowFormat nowExport read pathExists fuel selector folder =
      folderContents host settings nowFormat nowExport read pathExists fuel selector false
        folder ∧
    (validFiles host settings folder = [] →
      folderContents host settings nowFormat nowExport read pathExists fuel selector toClipboard
          folder =
        ⟨[.notice .noValidFiles], .done .noValidFiles⟩) ∧
    (validFiles host settings folder ≠ [] →
      (∀ fs, Effect.openModal fs ∈
          (folderContents host settings nowFormat nowExport read pathExists fuel selector
            toClipboard folder).effects ↔
        (fs = validFiles host settings folder ∧ settings.showSelectionModal = true ∧
          settings.selectionThreshold ≤ (validFiles host settings folder).length)) ∧
      (¬ (settings.showSelectionModal = true ∧
          settings.selectionThreshold ≤ (validFiles host settings folder).length) →
        (folderContents host settings nowFormat nowExport read pathExists fuel selector
            toClipboard folder).effects.filterMap Effect.readFile? =
          validFiles host settings folder) ∧
      (settings.showSelectionModal = true →
        (validFiles host settings folder).length = settings.selectionThreshold →
        Effect.openModal (validFiles host settings folder) ∈
          (folderContents host settings nowFormat nowExport read pathExists fuel selector
            toClipboard folder).effects) ∧
      ((validFiles host settings folder).length + 1 = settings.selectionThreshold →
        (∀ fs, Effect.openModal fs ∉
          (folderContents host settings nowFormat nowExport read pathExists fuel selector
            toClipboard folder).effects) ∧
        (folderContents host settings nowFormat nowExport read pathExists fuel selector
            toClipboard folder).effects.filterMap Effect.readFile? =
          validFiles host settings folder)) := by
  refine ⟨rfl, rfl, ?_, ?_⟩
  · exact folderContents_of_no_valid host settings nowFormat nowExport read pathExists fuel
      selector toClipboard folder
  · intro hvalid
    have hiff : ∀ fs, Effect.openModal fs ∈
        (folderContents host settings nowFormat nowExport read pathExists fuel selector
          toClipboard folder).effects ↔
        (fs = validFiles host settings folder ∧ settings.showSelectionModal = true ∧
          settings.selectionThreshold ≤ (validFiles host settings folder).length) := by
      intro fs
      by_cases hcond : settings.showSelectionModal = true ∧
          settings.selectionThreshold ≤ (validFiles host settings folder).length
      · rw [folderContents_of_modal host settings nowFormat nowExport read pathExists fuel
          selector toClipboard folder hvalid hcond.1 hcond.2]
        have hno := openModal_not_mem_effects host settings nowFormat nowExport read pathExists
          fuel
        cases hsel : selector (validFiles host settings folder) with
        | none => simp [hcond.1, hcond.2]
        | some selectedFiles =>
            by_cases hempty : selectedFiles.length = 0
            · simp [hempty, hcond.1, hcond.2]
            · simp [hempty, hcond.1, hcond.2, hno]
      · have hno := openModal_not_mem_effects host settings nowFormat nowExport read pathExists
          fuel (validFiles host settings folder) folder.name toClipboard fs
        constructor
        · intro hmem
          rcases folderContents_direct_effects host settings nowFormat nowExport read pathExists
            fuel selector toClipboard folder hvalid hcond with h | h
          · rw [h] at hmem
            exact absurd hmem hno
          · rw [h] at hmem
            simp only [List.mem_append, List.mem_singleton] at hmem
            rcases hmem with hmem | hmem
            · exact absurd hmem hno
            · cases hmem
        · intro h
          exact absurd ⟨h.2.1, h.2.2⟩ hcond
    have hreads : ¬ (settings.showSelectionModal = true ∧
        settings.selectionThreshold ≤ (validFiles host settings folder).length) →
        (folderContents host settings nowFormat nowExport read pathExists fuel selector
            toClipboard folder).effects.filterMap Effect.readFile? =
          validFiles host settings folder := by
      intro hcond
      rcases folderContents_direct_effects host settings nowFormat nowExport read pathExists
        fuel selector toClipboard folder hvalid hcond with h | h
      · rw [h, processSelectedFiles_effects_reads]
      · rw [h, List.filterMap_append, processSelectedFiles_effects_reads]
        simp [Effect.readFile?]
    refine ⟨hiff, hreads, ?_, ?_⟩
    · intro hmodal hcount
      exact (hiff _).mpr ⟨rfl, hmodal, by omega⟩
    · intro hcount
      have hcond : ¬ (settings.showSelectionModal = true ∧
          settings.selectionThreshold ≤ (validFiles host settings folder).length) := by
        rintro ⟨_, h⟩
        omega
      exact ⟨fun fs hmem => hcond ((hiff fs).mp hmem).2, hreads hcond⟩

/-- Witness of C11: the example folder has three valid files; with the
threshold 3 the modal opens on them, with the threshold 4 it does not and
the three files are read. -/
theorem folderContents_selector_threshold_witness :
    Effect.openModal (validFiles exampleHost settingsThreshold3 exampleFolder) ∈
      (folderContents exampleHost settingsThreshold3 "" "" (fun _ => some "hello")
        (fun _ => false) 0 (fun fs => some fs) true exampleFolder).effects ∧
    (folderContents exampleHost settingsThreshold4 "" "" (fun _ => some "hello")
        (fun _ => false) 0 (fun fs => some fs) true exampleFolder).effects.filterMap
        Effect.readFile? =
      validFiles exampleHost settingsThreshold4 exampleFolder :=
  ⟨((folderContents_selector_threshold exampleHost settingsThreshold3 "" ""
      (fun _ => some "hello") (fun _ => false) 0 (fun fs => some fs) true exampleFolder).2.2.2
      (by decide)).2.2.1 rfl (by decide),
   (((folderContents_selector_threshold exampleHost settingsThreshold4 "" ""
      (fun _ => some "hello") (fun _ => false) 0 (fun fs => some fs) true exampleFolder).2.2.2
      (by decide)).2.2.2 (by decide)).2⟩


/-- C13: when the modal is opened and submits an empty list, the folder
operation shows the no-files-selected notice and does nothing else: no file
is read, nothing is written to the clipboard, no folder or file is created;
when it submits a non-empty list, exactly the submitted files are read, in
the submitted order, and every text written is the rendering of their
records. -/
theorem folderContents_selection_result (host : Host) (settings : Settings)
    (nowFormat nowExport : String) (read : TFile → Option String)
    (pathExists : String → Bool) (fuel : Nat) (selector : List TFile → Option (List TFile))
    (toClipboard : Bool) (folder : TFolder) (hvalid : validFiles host settings folder ≠ [])
    (hmodal : settings.showSelectionModal = true)
    (hcount : settings.selectionThreshold ≤ (validFiles host settings folder).length) :
    (selector (validFiles host settings folder) = some [] →
      folderContents host settings nowFormat nowExport read pathExists fuel selector toClipboard
          folder =
        ⟨[.openModal (validFiles host settings folder), .notice .noFilesSelected],
          .done .noFilesSelected⟩ ∧
      (folderContents host settings nowFormat nowExport read pathExists fuel selector
          toClipboard folder).effects.all (fun e => !e.isReadOrWrite) = true) ∧
    (∀ selectedFiles, selectedFiles ≠ [] →
      selector (validFiles host settings folder) = some selectedFiles →
      (folderContents host settings nowFormat nowExport read pathExists fuel selector
          toClipboard folder).effects =
        .openModal (validFiles host settings folder) ::
          processSelectedFiles.effects host settings nowFormat nowExport read pathExists fuel
            selectedFiles folder.name toClipboard ∧
      (folderContents host settings nowFormat nowExport read pathExists fuel selector
          toClipboard folder).effects.filterMap Effect.readFile? = selectedFiles ∧
      (∀ text ∈ (folderContents host settings nowFormat nowExport read pathExists fuel selector
          toClipboard folder).effects.filterMap Effect.writtenText?,
        text = formatContent host settings nowFormat
          (processSelectedFiles.loop read selectedFiles []) (some folder.name)) ∧
      (toClipboard = true →
        (folderContents host settings nowFormat nowExport read pathExists fuel selector
            toClipboard folder).outcome =
          .done (.copied (formatContent host settings nowFormat
            (processSelectedFiles.loop read selectedFiles []) (some folder.name))))) := by
  have hrun := folderContents_of_modal host settings nowFormat nowExport read pathExists fuel
    selector toClipboard folder hvalid hmodal hcount
  constructor
  · intro hsel
    rw [hsel] at hrun
    simp only [List.length_nil, if_true] at hrun
    rw [hrun]
    exact ⟨rfl, rfl⟩
  · intro selectedFiles hne hsel
    have hlen : selectedFiles.length ≠ 0 := by
      simpa [List.length_eq_zero] using hne
    rw [hsel] at hrun
    simp only [hlen, if_false] at hrun
    rw [hrun]
    refine ⟨rfl, ?_, ?_, ?_⟩
    · simp only [List.filterMap_cons, Effect.readFile?, processSelectedFiles_effects_reads]
    · intro text htext
      simp only [List.filterMap_cons, Effect.writtenText?] at htext
      exact processSelectedFiles_effects_written host settings nowFormat nowExport read
        pathExists fuel selectedFiles folder.name toClipboard text htext
    · intro hclip
      subst hclip
      simp [processSelectedFiles]

/-- Witness of C13: the modal opens on the three files of the example folder
and submits none of them. -/
theorem folderContents_selection_result_witness :
    folderContents exampleHost settingsThreshold3 "" "" (fun _ => some "hello")
        (fun _ => false) 0 (fun _ => some []) false exampleFolder =
      ⟨[.openModal (validFiles exampleHost settingsThreshold3 exampleFolder),
        .notice .noFilesSelected], .done .noFilesSelected⟩ ∧
    (folderContents exampleHost settingsThreshold3 "" "" (fun _ => some "hello")
        (fun _ => false) 0 (fun _ => some []) false exampleFolder).effects.all
      (fun e => !e.isReadOrWrite) = true :=
  (folderContents_selection_result exampleHost settingsThreshold3 "" ""
    (fun _ => some "hello") (fun _ => false) 0 (fun _ => some []) false exampleFolder
    (by decide) rfl (by decide)).1 rfl


/-! ### Single-file operations: the amended claim -/

theorem exportFileContents_of_eligible (host : Host) (settings : Settings)
    (nowFormat nowExport : String) (read : TFile → Option String)
    (pathExists : String → Bool) (fuel : Nat) (file : TFile) (content : String)
    (helig : validFilesFilter host.toLowerCase settings file = true)
    (hread : read file = some content) :
    exportFileContents host settings nowFormat nowExport read pathExists fuel file =
      match createExportPath settings nowExport pathExists file.name fuel with
      | none => none
      | some (.error _) => some .failed
      | some (.ok exportPath) =>
          some (.exported exportPath (formatContent host settings nowFormat
            [{ name := file.name, path := file.path, content := content, size := file.size }]
            none)) := by
  have helig' := (validFilesFilter_eligible host.toLowerCase settings file).mp helig
  have hsize : ¬ file.size > settings.maxFileSize * 1024 := by omega
  have hext : settings.fileExtensions.contains (host.toLowerCase file.extension) = true := by
    simpa using helig'.2
  simp only [exportFileContents, hsize, hext, hread, if_false, Bool.not_true,
    Bool.false_eq_true]

/-- C10, amended: for every eligible file whose read succeeds, with markdown
output and `includeFileNames` on, the single-file operations format the one
record `{name, path: file.path, content, size}` with no folder label; the text
is `# <file path>`, a blank line and the content, which carries the bare file
name exactly when the file's path is its name.  `copyFileContents` hands that
text to the clipboard; `exportFileContents` writes it to the path returned by
`createExportPath`, which is the first candidate whenever that one is free,
and ends in its `catch` block when `createExportPath` throws. -/
theorem copyFileContents_heading_is_file_path (host : Host) (settings : Settings)
    (file : TFile) (content : String) (read : TFile → Option String)
    (helig : validFilesFilter host.toLowerCase settings file = true)
    (hread : read file = some content)
    (hfmt : settings.outputFormat = "markdown")
    (hnames : settings.includeFileNames = true) :
    (∀ now : String,
      copyFileContents host settings now read file =
        .copied (formatContent host settings now
          [{ name := file.name, path := file.path, content := content, size := file.size }]
          none) ∧
      copyFileContents host settings now read file =
        .copied ("# " ++ file.path ++ "\n\n" ++ content)) ∧
    (∀ (nowFormat nowExport : String) (pathExists : String → Bool) (fuel : Nat) (o : Outcome),
      exportFileContents host settings nowFormat nowExport read pathExists fuel file = some o →
        o = .failed ∨
        ∃ exportPath, o = .exported exportPath ("# " ++ file.path ++ "\n\n" ++ content)) ∧
    (∀ (nowFormat nowExport : String) (pathExists : String → Bool) (fuel : Nat),
      exportFileContents host settings nowFormat nowExport read pathExists fuel file =
        (match createExportPath settings nowExport pathExists file.name fuel with
        | none => none
        | some (.error _) => some .failed
        | some (.ok exportPath) =>
            some (.exported exportPath ("# " ++ file.path ++ "\n\n" ++ content))) ∧
      (∀ exportPath,
        createExportPath settings nowExport pathExists file.name fuel = some (.ok exportPath) →
        exportFileContents host settings nowFormat nowExport read pathExists fuel file =
          some (.exported exportPath (formatContent host settings nowFormat
            [{ name := file.name, path := file.path, content := content, size := file.size }]
            none)) ∧
        exportFileContents host settings nowFormat nowExport read pathExists fuel file =
          some (.exported exportPath ("# " ++ file.path ++ "\n\n" ++ content))) ∧
      (∀ e,
        createExportPath settings nowExport pathExists file.name fuel = some (.error e) →
        exportFileContents host settings nowFormat nowExport read pathExists fuel file =
          some .failed) ∧
      (pathExists (firstExportPath settings
          (if settings.includeTimestamp = true then file.name ++ "-" ++ timestamp nowExport
            else file.name)) = false →
        exportFileContents host settings nowFormat nowExport read pathExists (fuel + 1) file =
          some (.exported
            (firstExportPath settings
              (if settings.includeTimestamp = true then file.name ++ "-" ++ timestamp nowExport
                else file.name))
            ("# " ++ file.path ++ "\n\n" ++ content)))) := by
  have helig' := (validFilesFilter_eligible host.toLowerCase settings file).mp helig
  have hsize : ¬ file.size > settings.maxFileSize * 1024 := by omega
  have hext : settings.fileExtensions.contains (host.toLowerCase file.extension) = true := by
    simpa using helig'.2
  have hexport : ∀ (nowFormat nowExport : String) (pathExists : String → Bool) (fuel : Nat),
      exportFileContents host settings nowFormat nowExport read pathExists fuel file =
        (match createExportPath settings nowExport pathExists file.name fuel with
        | none => none
        | some (.error _) => some .failed
        | some (.ok exportPath) =>
            some (.exported exportPath ("# " ++ file.path ++ "\n\n" ++ content))) := by
    intro nowFormat nowExport pathExists fuel
    rw [exportFileContents_of_eligible host settings nowFormat nowExport read pathExists fuel
      file content helig hread, formatContent_single_markdown host settings nowFormat _ hfmt
      hnames]
  refine ⟨?_, ?_, ?_⟩
  · intro now
    have hcopy : copyFileContents host settings now read file =
        .copied (formatContent host settings now
          [{ name := file.name, path := file.path, content := content, size := file.size }]
          none) := by
      simp only [copyFileContents, hsize, hext, hread, if_false, Bool.not_true,
        Bool.false_eq_true]
    refine ⟨hcopy, ?_⟩
    rw [hcopy, formatContent_single_markdown host settings now _ hfmt hnames]
  · intro nowFormat nowExport pathExists fuel o ho
    rw [hexport] at ho
    cases hp : createExportPath settings nowExport pathExists file.name fuel with
    | none => simp [hp] at ho
    | some r =>
        cases r with
        | error e => simp [hp] at ho; exact Or.inl ho.symm
        | ok path => simp [hp] at ho; exact Or.inr ⟨path, ho.symm⟩
  · intro nowFormat nowExport pathExists fuel
    refine ⟨hexport nowFormat nowExport pathExists fuel, ?_, ?_, ?_⟩
    · intro exportPath hp
      constructor
      · rw [exportFileContents_of_eligible host settings nowFormat nowExport read pathExists
          fuel file content helig hread, hp]
      · rw [hexport, hp]
    · intro e hp
      rw [hexport, hp]
    · intro hfree
      rw [hexport, createExportPath_first_free settings nowExport file.name pathExists fuel
        hfree]

/-- Witness of C10 amended: the file `sub/a.md` with the default settings,
copied, and exported to an empty vault. -/
theorem copyFileContents_heading_is_file_path_witness :
    copyFileContents exampleHost DEFAULT_SETTINGS ""
        (fun _ => some "hello")
        { name := "a.md", path := "sub/a.md", extension := "md", size := 5 } =
      .copied ("# " ++ "sub/a.md" ++ "\n\n" ++ "hello") ∧
    exportFileContents exampleHost DEFAULT_SETTINGS "" "2026-11-04T12:34:56.789Z"
        (fun _ => some "hello") (fun _ => false) (0 + 1)
        { name := "a.md", path := "sub/a.md", extension := "md", size := 5 } =
      some (.exported "Exports/a.md-2026-11-04T12-34-56.md"
        ("# " ++ "sub/a.md" ++ "\n\n" ++ "hello")) :=
  have h := copyFileContents_heading_is_file_path exampleHost
    DEFAULT_SETTINGS { name := "a.md", path := "sub/a.md", extension := "md", size := 5 }
    "hello" (fun _ => some "hello") (by decide) rfl rfl rfl
  ⟨(h.1 "").2, (h.2.2 "" "2026-11-04T12:34:56.789Z" (fun _ => false) 0).2.2.2 rfl⟩


end CopyContents
